import Mathlib

/-!
Verification of the takopi agent supervisor.

This file gives a shallow embedding, in Lean, of the parts of the takopi
code base that the checked properties talk about:

* the escalation policy (`takopi/runners/escalation.py`),
* the liaison pane-output parser (`takopi/runners/liaison.py`),
* the inter-liaison coordinator (`takopi/runners/liaison_coordination.py`),
* the kimi runner's resume-line handling and end-of-stream synthesis
  (`takopi/runners/kimi.py`),
* the progress tracker (`takopi/progress.py`),
* the session-card builder (`takopi/session_card.py`).

Python strings are modelled as `List Char` (wrapped in `String` at the
interfaces); regular expressions are compiled by hand into executable
matching functions over `List Char` (case-insensitivity is modelled by
lower-casing the scanned text, `\s` by `isPySpace`, `\w` by ASCII
alphanumerics and underscore).  Dictionaries are association lists with
Python `dict` update semantics (replace in place, append new keys at the
end).  Filesystem directory listings are inputs of the embedded
operations, since the order in which `Path.glob` yields entries is
environment-determined.
-/

namespace Takopi

/-! ## String utilities -/

/-- Characters counted as whitespace by Python's `\s` and `str.strip()`
(ASCII subset). -/
def isPySpace (c : Char) : Bool :=
  c = ' ' || c = '\t' || c = '\n' || c = '\r' || c = '\x0b' || c = '\x0c'

/-- Characters matched by Python's `\w` (ASCII subset). -/
def isWordChar (c : Char) : Bool :=
  c.isAlphanum || c = '_'

/-- Lower-case every character; used to model the `(?i)` regex flag. -/
def lowerStr (s : List Char) : List Char :=
  s.map Char.toLower

/-- The character list of a string literal. -/
def lit (s : String) : List Char :=
  s.data

/-- `containsSub pat s` models `re.search` for a plain literal pattern
`pat`: does `pat` occur as a contiguous substring of `s`? -/
def containsSub (pat : List Char) : List Char → Bool
  | [] => pat.isEmpty
  | s@(_ :: rest) => pat.isPrefixOf s || containsSub pat rest

/-- Scan for literal `q` without crossing a newline (the segment scanned
by `.*` in a Python regex); on success return the remainder after the
first occurrence. -/
def gapFind (q : List Char) : List Char → Option (List Char)
  | [] => if q.isEmpty then some [] else none
  | s@(c :: rest) =>
    if q.isPrefixOf s then some (s.drop q.length)
    else if c = '\n' then none
    else gapFind q rest

/-- Match a chain `q₁.*q₂.*…` of literals separated by `.*` gaps,
staying within one line. -/
def gapChain : List (List Char) → List Char → Bool
  | [], _ => true
  | q :: qs, s =>
    match gapFind q s with
    | some r => gapChain qs r
    | none => false

/-- `searchSeq p ps s` models `re.search` for `p(.*q₁)(.*q₂)…` where the
leading literal may start anywhere in `s` and the `.*` gaps do not cross
newlines. -/
def searchSeq (p : List Char) (ps : List (List Char)) : List Char → Bool
  | [] => p.isPrefixOf ([] : List Char) && gapChain ps []
  | s@(_ :: rest) =>
    (p.isPrefixOf s && gapChain ps (s.drop p.length)) || searchSeq p ps rest

/-- `p.*q` search (one gap). -/
def gapMatch2 (p q s : List Char) : Bool :=
  searchSeq p [q] s

/-- `p.*q.*r` search (two gaps). -/
def gapMatch3 (p q r s : List Char) : Bool :=
  searchSeq p [q, r] s

/-- `pat\b` at the head of `s`: `pat` (whose last character is a word
character) followed by end of text or a non-word character. -/
def prefixRightB (pat s : List Char) : Bool :=
  pat.isPrefixOf s &&
    (match s.drop pat.length with
     | [] => true
     | c :: _ => !(isWordChar c))

/-- `re.search` for `pat\b`. -/
def containsRightB (pat : List Char) : List Char → Bool
  | [] => prefixRightB pat []
  | s@(_ :: rest) => prefixRightB pat s || containsRightB pat rest

/-- `pat\s` at the head of `s`: `pat` followed by one whitespace character. -/
def prefixThenSpace (pat s : List Char) : Bool :=
  pat.isPrefixOf s &&
    (match s.drop pat.length with
     | [] => false
     | c :: _ => isPySpace c)

/-- `re.search` for `pat\s`. -/
def containsThenSpace (pat : List Char) : List Char → Bool
  | [] => false
  | s@(_ :: rest) => prefixThenSpace pat s || containsThenSpace pat rest

/-- Python `str.strip()` (ASCII whitespace). -/
def pyStrip (s : List Char) : List Char :=
  ((s.dropWhile isPySpace).reverse.dropWhile isPySpace).reverse

/-- Python `str.splitlines()` over `\n`, `\r\n` and `\r`: terminators are
removed and a trailing terminator yields no extra empty line. -/
def pySplitlines : List Char → List (List Char)
  | [] => []
  | '\r' :: '\n' :: rest => [] :: pySplitlines rest
  | '\n' :: rest => [] :: pySplitlines rest
  | '\r' :: rest => [] :: pySplitlines rest
  | c :: rest =>
    match pySplitlines rest with
    | [] => [[c]]
    | l :: ls => (c :: l) :: ls

/-- Python truthiness of an optional string: `None` and `""` are falsy. -/
def pyTruthyStrOpt : Option String → Bool
  | none => false
  | some s => s ≠ ""

/-! ## Escalation policy (`takopi/runners/escalation.py`)

Each entry below embeds one compiled pattern from the
`always_escalate_patterns` / `auto_approve_patterns` lists; the scanned
text is lower-cased to model `(?i)`. -/

/-- `(?i)delete|remove|destroy|drop|truncate` -/
def escPatDestructive (t : List Char) : Bool :=
  containsSub (lit "delete") t || containsSub (lit "remove") t ||
    containsSub (lit "destroy") t || containsSub (lit "drop") t ||
    containsSub (lit "truncate") t

/-- `(?i)production|prod|live` -/
def escPatProduction (t : List Char) : Bool :=
  containsSub (lit "production") t || containsSub (lit "prod") t ||
    containsSub (lit "live") t

/-- `(?i)api[- ]?key|secret|password|credential|token` -/
def escPatCredentials (t : List Char) : Bool :=
  containsSub (lit "api-key") t || containsSub (lit "api key") t ||
    containsSub (lit "apikey") t || containsSub (lit "secret") t ||
    containsSub (lit "password") t || containsSub (lit "credential") t ||
    containsSub (lit "token") t

/-- `(?i)billing|payment|cost|charge` -/
def escPatBilling (t : List Char) : Bool :=
  containsSub (lit "billing") t || containsSub (lit "payment") t ||
    containsSub (lit "cost") t || containsSub (lit "charge") t

/-- `(?i)force|--force|-f\b` -/
def escPatForce (t : List Char) : Bool :=
  containsSub (lit "force") t || containsSub (lit "--force") t ||
    containsRightB (lit "-f") t

/-- `(?i)push.*main|push.*master|merge.*main|merge.*master` -/
def escPatPushMain (t : List Char) : Bool :=
  gapMatch2 (lit "push") (lit "main") t || gapMatch2 (lit "push") (lit "master") t ||
    gapMatch2 (lit "merge") (lit "main") t || gapMatch2 (lit "merge") (lit "master") t

/-- The `always_escalate_patterns` list. -/
def alwaysEscalatePatterns : List (List Char → Bool) :=
  [escPatDestructive, escPatProduction, escPatCredentials, escPatBilling,
    escPatForce, escPatPushMain]

/-- `(?i)create.*directory|mkdir` -/
def autoPatMkdir (t : List Char) : Bool :=
  gapMatch2 (lit "create") (lit "directory") t || containsSub (lit "mkdir") t

/-- `(?i)install.*dev.*depend` -/
def autoPatDevDeps (t : List Char) : Bool :=
  gapMatch3 (lit "install") (lit "dev") (lit "depend") t

/-- `(?i)run.*test|npm test|pytest|cargo test` -/
def autoPatTests (t : List Char) : Bool :=
  gapMatch2 (lit "run") (lit "test") t || containsSub (lit "npm test") t ||
    containsSub (lit "pytest") t || containsSub (lit "cargo test") t

/-- `(?i)format.*code|prettier|black|ruff` -/
def autoPatFormat (t : List Char) : Bool :=
  gapMatch2 (lit "format") (lit "code") t || containsSub (lit "prettier") t ||
    containsSub (lit "black") t || containsSub (lit "ruff") t

/-- `(?i)lint|eslint|flake8` -/
def autoPatLint (t : List Char) : Bool :=
  containsSub (lit "lint") t || containsSub (lit "eslint") t ||
    containsSub (lit "flake8") t

/-- `(?i)build|compile` -/
def autoPatBuild (t : List Char) : Bool :=
  containsSub (lit "build") t || containsSub (lit "compile") t

/-- `(?i)read|view|show|list|ls\b|cat\b` -/
def autoPatReadOnly (t : List Char) : Bool :=
  containsSub (lit "read") t || containsSub (lit "view") t ||
    containsSub (lit "show") t || containsSub (lit "list") t ||
    containsRightB (lit "ls") t || containsRightB (lit "cat") t

/-- The `auto_approve_patterns` list. -/
def autoApprovePatterns : List (List Char → Bool) :=
  [autoPatMkdir, autoPatDevDeps, autoPatTests, autoPatFormat, autoPatLint,
    autoPatBuild, autoPatReadOnly]

/-- Does any `always_escalate` pattern match the text? -/
def alwaysEscalateMatch (full : List Char) : Bool :=
  alwaysEscalatePatterns.any (fun p => p (lowerStr full))

/-- Does any `auto_approve` pattern match the text? -/
def autoApproveMatch (full : List Char) : Bool :=
  autoApprovePatterns.any (fun p => p (lowerStr full))

/-- `f"{question} {context or ''}"`: the concatenated text scanned by the
policy. -/
def fullText (question : String) (context : Option String) : List Char :=
  question.data ++ (' ' :: (context.getD "").data)

/-- `EscalationPolicy.should_escalate`, with the optional
`custom_decider` passed explicitly (its Python return value `str | None`
is an `Option String`). -/
def shouldEscalate (custom : Option (String → String → Option String))
    (question : String) (context : Option String) : Bool :=
  let full := fullText question context
  if alwaysEscalateMatch full then true
  else if autoApproveMatch full then false
  else
    match custom with
    | some decider =>
      match decider question (context.getD "") with
      | some d => if d = "escalate" then true else if d = "auto" then false else true
      | none => true
    | none => true

/-- `EscalationPolicy.auto_response`; `none` models Python `None`, and
the empty-string response models pressing Enter. -/
def autoResponse (custom : Option (String → String → Option String))
    (question : String) (context : Option String) : Option String :=
  if shouldEscalate custom question context then none
  else
    let q := lowerStr question.data
    if containsSub (lit "y/n") q || gapMatch2 (lit "yes") (lit "no") q ||
        containsSub (lit "(y)") q || containsSub (lit "[y]") q then some "y"
    else if containsSub (lit "confirm") q || containsSub (lit "proceed") q ||
        containsSub (lit "continue") q || containsSub (lit "ok?") q ||
        containsSub (lit "okay?") q then some "yes"
    else if containsSub (lit "press enter") q || containsSub (lit "hit enter") q ||
        containsSub (lit "<enter>") q then some ""
    else some "yes"

/-- `EscalationPolicy.assess_urgency`. -/
def assessUrgency (question : String) (context : Option String) : String :=
  let t := lowerStr (fullText question context)
  if containsSub (lit "production") t || containsThenSpace (lit "prod") t ||
      containsThenSpace (lit "live") t ||
      containsSub (lit "billing") t || containsSub (lit "payment") t ||
      containsSub (lit "charge") t ||
      containsSub (lit "api-key") t || containsSub (lit "api key") t ||
      containsSub (lit "apikey") t || containsSub (lit "secret") t ||
      containsSub (lit "password") t || containsSub (lit "credential") t then
    "critical"
  else if containsSub (lit "delete") t || containsSub (lit "remove") t ||
      containsSub (lit "destroy") t || containsSub (lit "drop") t ||
      containsSub (lit "truncate") t ||
      containsSub (lit "force") t || containsSub (lit "--force") t ||
      containsSub (lit "overwrite") t || gapMatch2 (lit "replace") (lit "all") t then
    "high"
  else if gapMatch2 (lit "create") (lit "directory") t || containsSub (lit "mkdir") t ||
      gapMatch2 (lit "install") (lit "depend") t ||
      containsSub (lit "format") t || containsSub (lit "lint") t then
    "low"
  else "normal"

/-! ## Domain model (`takopi/model.py`) -/

/-- Scalar Python values carried in `detail` / `payload` / `meta` maps
(the embedded operations only ever store scalars there). -/
inductive PyVal where
  | str (s : String)
  | int (n : Int)
  | bool (b : Bool)
  | nil
deriving DecidableEq, Repr

/-- `ResumeToken(engine, value)`. -/
structure ResumeToken where
  engine : String
  value : String
deriving DecidableEq, Repr

/-- `Action(id, kind, title, detail)`. -/
structure Action where
  id : String
  kind : String
  title : String
  detail : List (String × PyVal) := []
deriving DecidableEq, Repr

/-- The canonical event union from `takopi/model.py` (one constructor per
dataclass; field names follow the source). -/
inductive TakopiEvent where
  | started (engine : String) (resume : ResumeToken) (title : Option String)
      (meta : Option (List (String × PyVal)))
  | action (engine : String) (action : Action) (phase : String)
      (ok : Option Bool) (message : Option String) (level : Option String)
  | completed (engine : String) (ok : Bool) (answer : String)
      (resume : Option ResumeToken) (error : Option String)
      (usage : Option (List (String × PyVal)))
  | inputRequest (engine : String) (requestId : String) (question : String)
      (source : String) (context : Option String) (options : Option (List String))
      (urgency : String)
  | inputResponse (engine : String) (requestId : String) (response : String)
      (responder : String)
deriving DecidableEq, Repr

/-- Modelled from the spec: `takopi/events.py` (the `EventFactory`
helper) is not part of the provided sources; the spec fixes the shape of
each canonical event (§3), so the factory methods used by the runners
are modelled as the evident constructors tagged with the factory's
engine.  `completedOk` is `factory.completed_ok(answer=…, resume=…)`. -/
def EventFactory.completedOk (engine : String) (answer : String)
    (resume : Option ResumeToken) : TakopiEvent :=
  .completed engine true answer resume none none

/-- Modelled from the spec: `factory.completed_error(error=…, resume=…,
answer=…)`, a terminal `completed(ok=false)` event (§3, §4.3). -/
def EventFactory.completedError (engine : String) (error : String)
    (resume : Option ResumeToken) (answer : String := "") : TakopiEvent :=
  .completed engine false answer resume (some error) none

/-- Modelled from the spec: `factory.started(token, title=…, meta=…)`
(§3). -/
def EventFactory.startedEvent (engine : String) (resume : ResumeToken)
    (title : Option String) (meta : Option (List (String × PyVal))) : TakopiEvent :=
  .started engine resume title meta

/-- Modelled from the spec: `factory.action_completed(action_id=…,
kind=…, title=…, ok=…, detail=…)` — an `action` event with
`phase="completed"` (§3). -/
def EventFactory.actionCompleted (engine : String) (actionId : String)
    (kind : String) (title : String) (ok : Bool)
    (detail : List (String × PyVal)) : TakopiEvent :=
  .action engine ⟨actionId, kind, title, detail⟩ "completed" (some ok) none none

/-- Modelled from the spec: `factory.action_started(action_id=…, kind=…,
title=…, detail=…)` — an `action` event with `phase="started"` (§3). -/
def EventFactory.actionStarted (engine : String) (actionId : String)
    (kind : String) (title : String) (detail : List (String × PyVal)) : TakopiEvent :=
  .action engine ⟨actionId, kind, title, detail⟩ "started" none none none

/-! ## Kimi runner (`takopi/runners/kimi.py`) -/

/-- `KimiStreamState` (the `factory` field is represented by the fixed
engine tag `"kimi"`). -/
structure KimiStreamState where
  pendingActions : List (String × Action) := []
  lastAssistantText : Option String := none
  noteSeq : Nat := 0
  sessionId : Option String := none
  didStart : Bool := false
deriving DecidableEq, Repr

/-- `KimiRunner.format_resume`: errors unless the token's engine is
`kimi`, else renders the backtick-wrapped resume line. -/
def kimiFormatResume (token : ResumeToken) : Except String String :=
  if token.engine ≠ "kimi" then
    .error ("resume token is for engine " ++ token.engine)
  else
    .ok ("`kimi --session " ++ token.value ++ "`")

/-- Anchored match of one line against the kimi resume regex
`(?im)^\s*`?kimi\s+(?:--session|-S)\s+(?P<token>[^`\s]+)`?\s*$`,
returning the `token` capture.  All quantified pieces are deterministic
here: `\s*`/`\s+` cannot trade characters with the following literal or
token, and the token class excludes the backtick and whitespace, so
maximal munch is equivalent to backtracking search. -/
def kimiLineMatch (line : List Char) : Option (List Char) :=
  let s1 := line.dropWhile isPySpace
  let s2 := match s1 with
    | '`' :: r => r
    | _ => s1
  if lowerStr (s2.take 4) = lit "kimi" then
    let s3 := s2.drop 4
    if (s3.takeWhile isPySpace).isEmpty then none
    else
      let s4 := s3.dropWhile isPySpace
      let afterOpt : Option (List Char) :=
        if lowerStr (s4.take 9) = lit "--session" then some (s4.drop 9)
        else if lowerStr (s4.take 2) = lit "-s" then some (s4.drop 2)
        else none
      match afterOpt with
      | none => none
      | some s5 =>
        if (s5.takeWhile isPySpace).isEmpty then none
        else
          let s6 := s5.dropWhile isPySpace
          let tok := s6.takeWhile (fun c => !(c = '`') && !(isPySpace c))
          if tok.isEmpty then none
          else
            let s7 := s6.drop tok.length
            let s8 := match s7 with
              | '`' :: r => r
              | _ => s7
            if s8.all isPySpace then some tok else none
  else none

/-- Split on `'\n'` (all pieces kept), to model the `(?m)` per-line
anchors of the resume regex. -/
def splitNl : List Char → List (List Char)
  | [] => [[]]
  | c :: rest =>
    if c = '\n' then [] :: splitNl rest
    else
      match splitNl rest with
      | [] => [[c]]
      | l :: ls => (c :: l) :: ls

/-- Modelled from the spec: `extract_resume` lives in the
`ResumeTokenMixin` of `takopi/runner.py`, which is not among the
provided sources; per §4.3/§6 it searches the text with the backend's
resume regex and returns `ResumeToken(engine, token-capture)` on the
first match.  The `(?m)` anchors are modelled by trying each
newline-separated line (`\s` is treated as not crossing a line
boundary, which is exact for the single-line texts considered here). -/
def kimiExtractResume (text : String) : Option ResumeToken :=
  (splitNl text.data).findSome? fun l =>
    (kimiLineMatch l).map fun tok => ResumeToken.mk "kimi" (String.mk tok)

/-- Python `x or y` for optional objects (a present `ResumeToken` is
always truthy). -/
def orOpt (x y : Option ResumeToken) : Option ResumeToken :=
  match x with
  | some v => some v
  | none => y

/-- `KimiRunner.stream_end_events`: synthesize the terminal `completed`
event when the backend stream ends without its own completion record. -/
def kimiStreamEndEvents (resume foundSession : Option ResumeToken)
    (state : KimiStreamState) : List TakopiEvent :=
  if pyTruthyStrOpt state.lastAssistantText then
    let rt0 := orOpt foundSession resume
    let resumeToken :=
      if rt0 = none ∧ pyTruthyStrOpt state.sessionId then
        some (ResumeToken.mk "kimi" (state.sessionId.getD ""))
      else rt0
    [EventFactory.completedOk "kimi" (state.lastAssistantText.getD "") resumeToken]
  else if foundSession = none then
    [EventFactory.completedError "kimi"
      "kimi finished but no session_id was captured" resume]
  else
    [EventFactory.completedError "kimi" "kimi finished without a result"
      foundSession ((state.lastAssistantText.getD ""))]

/-! ## Association lists with Python `dict` update semantics -/

/-- `d[k] = v` on a `dict` modelled as an association list: replace in
place when the key exists, append otherwise. -/
def alistSet {α : Type} (l : List (String × α)) (k : String) (v : α) :
    List (String × α) :=
  if l.any (fun kv => kv.1 = k) then
    l.map (fun kv => if kv.1 = k then (k, v) else kv)
  else l ++ [(k, v)]

/-- `d.get(k)`. -/
def alistGet {α : Type} (l : List (String × α)) (k : String) : Option α :=
  (l.find? (fun kv => kv.1 = k)).map (·.2)

/-! ## Liaison runner (`takopi/runners/liaison.py`) -/

/-- `TmuxPane`. -/
structure TmuxPane where
  sessionName : String
  windowIndex : Nat
  paneIndex : Nat
  engine : String
  role : String
  subagentResume : Option String := none
  lastCaptureHash : String := ""
  pendingInputRequest : Option String := none
deriving DecidableEq, Repr

/-- `LiaisonStreamState` (the `factory` field is represented by the
fixed engine tag `"liaison"`; the coordination folder is kept as an
opaque path string). -/
structure LiaisonStreamState where
  sessionId : Option String := none
  tmuxSession : Option String := none
  panes : List (String × TmuxPane) := []
  pendingRequests : List (String × TakopiEvent) := []
  noteSeq : Nat := 0
  requestSeq : Nat := 0
  coordinationFolder : Option String := none
  completed : Bool := false
  finalAnswer : String := ""
deriving DecidableEq, Repr

/-- The five phrase alternatives of the first question regex
`(?:Do you want|Would you like|Should I|Can I|May I)\s+.+\?` (re.I),
lower-cased. -/
def questionPhrases : List (List Char) :=
  [lit "do you want", lit "would you like", lit "should i", lit "can i",
    lit "may i"]

/-- After a phrase occurrence: `\s+.+\?` demands one whitespace
character and then a later `?` at distance at least two (equivalent to
the backtracking semantics on a newline-free line). -/
def qSuffixOk (rest : List Char) : Bool :=
  match rest with
  | [] => false
  | c :: _ => isPySpace c && (rest.drop 2).contains '?'

/-- Scan (already lower-cased) text for the first question pattern. -/
def qp1Scan : List Char → Bool
  | [] => false
  | s@(_ :: rest) =>
    (questionPhrases.any fun p => p.isPrefixOf s && qSuffixOk (s.drop p.length)) ||
      qp1Scan rest

/-- Question pattern 1. -/
def qp1Match (line : List Char) : Bool :=
  qp1Scan (lowerStr line)

/-- Question pattern 2, `\?\s*$`: the line ends in `?` up to trailing
whitespace. -/
def qp2Match (line : List Char) : Bool :=
  match line.reverse.dropWhile isPySpace with
  | '?' :: _ => true
  | _ => false

/-- After a `y/n`-alternative: `\s*[:>]?\s*$`. -/
def ynTail (rest : List Char) : Bool :=
  let r1 := rest.dropWhile isPySpace
  let r2 := match r1 with
    | ':' :: t => t
    | '>' :: t => t
    | _ => r1
  r2.all isPySpace

/-- Question pattern 3, `(?:y/n|yes/no|Y/N)\s*[:>]?\s*$` (case
sensitive: the source compiles it without `re.I`). -/
def qp3Scan : List Char → Bool
  | [] => false
  | s@(_ :: rest) =>
    (([lit "y/n", lit "yes/no", lit "Y/N"]).any fun p =>
      p.isPrefixOf s && ynTail (s.drop p.length)) || qp3Scan rest

/-- After a confirm-word: `\s*\?`. -/
def qmTail (rest : List Char) : Bool :=
  match rest.dropWhile isPySpace with
  | '?' :: _ => true
  | _ => false

/-- Scan (already lower-cased) text for pattern 4,
`(?:confirm|proceed|continue)\s*\?` (re.I). -/
def qp4Scan : List Char → Bool
  | [] => false
  | s@(_ :: rest) =>
    (([lit "confirm", lit "proceed", lit "continue"]).any fun p =>
      p.isPrefixOf s && qmTail (s.drop p.length)) || qp4Scan rest

/-- Does any of the five `_QUESTION_PATTERNS` match the line?  (In the
source the per-pattern handling is identical and a `break` follows the
first match, so only the disjunction is observable.) -/
def anyQuestionPattern (line : List Char) : Bool :=
  qp1Match line || qp2Match line || qp3Scan line ||
    qp4Scan (lowerStr line) || containsSub (lit "press enter to continue") (lowerStr line)

/-- The `_is_completion_marker` marker list. -/
def completionMarkers : List String :=
  ["Task completed", "Done.", "Finished.", "All tasks complete"]

/-- `LiaisonRunner._is_completion_marker`: case-insensitive substring
test against the marker list. -/
def isCompletionMarker (line : List Char) : Bool :=
  completionMarkers.any fun m => containsSub (lowerStr m.data) (lowerStr line)

/-- Python `f"{x}"` of an `Optional[str]`. -/
def fstrOptStr : Option String → String
  | none => "None"
  | some s => s

/-- `LiaisonRunner._create_input_request`: allocate a request id, record
it in the pending map and on the pane; `none` when the pane already has
an outstanding request. -/
def createInputRequest (question : String) (pane : TmuxPane)
    (st : LiaisonStreamState) :
    Option TakopiEvent × TmuxPane × LiaisonStreamState :=
  if pane.pendingInputRequest.isSome then (none, pane, st)
  else
    let seq := st.requestSeq + 1
    let requestId := fstrOptStr st.sessionId ++ "_" ++ toString seq
    let urgency := assessUrgency question none
    let event := TakopiEvent.inputRequest "liaison" requestId question
      "subagent" (some ("From " ++ pane.engine ++ " in pane " ++ pane.role))
      none urgency
    (some event,
      { pane with pendingInputRequest := some requestId },
      { st with
        requestSeq := seq
        pendingRequests := alistSet st.pendingRequests requestId event })

/-- One stripped, non-empty line of `LiaisonRunner._parse_pane_output`:
question handling (escalate or auto-respond — the asynchronous
`send-keys` of the auto-response is an external effect and is not part
of the state) followed by the completion-marker check.  `custom` is the
escalation policy's `custom_decider`. -/
def parsePaneLine (custom : Option (String → String → Option String))
    (output : String) (line : List Char) (pane : TmuxPane)
    (st : LiaisonStreamState) :
    List TakopiEvent × TmuxPane × LiaisonStreamState :=
  let (evs, pane1, st1) :=
    if anyQuestionPattern line then
      if shouldEscalate custom (String.mk line) none then
        match createInputRequest (String.mk line) pane st with
        | (some e, p, s) => ([e], p, s)
        | (none, p, s) => ([], p, s)
      else
        match autoResponse custom (String.mk line) none with
        | some resp =>
          let s := { st with noteSeq := st.noteSeq + 1 }
          ([EventFactory.actionCompleted "liaison"
              ("liaison.auto." ++ toString s.noteSeq) "note"
              ("Auto-responded: " ++ resp) true
              [("question", PyVal.str (String.mk line))]],
            pane, s)
        | none => ([], pane, st)
    else ([], pane, st)
  if isCompletionMarker line then
    (evs, pane1, { st1 with finalAnswer := output, completed := true })
  else (evs, pane1, st1)

/-- The line loop of `_parse_pane_output`: strip each line and skip
empty ones. -/
def parsePaneOutputGo (custom : Option (String → String → Option String))
    (output : String) :
    List (List Char) → TmuxPane → LiaisonStreamState →
      List TakopiEvent × TmuxPane × LiaisonStreamState
  | [], pane, st => ([], pane, st)
  | l :: ls, pane, st =>
    let stripped := pyStrip l
    if stripped.isEmpty then parsePaneOutputGo custom output ls pane st
    else
      let (evs, pane1, st1) := parsePaneLine custom output stripped pane st
      let (evs2, pane2, st2) := parsePaneOutputGo custom output ls pane1 st1
      (evs ++ evs2, pane2, st2)

/-- `LiaisonRunner._parse_pane_output`. -/
def parsePaneOutput (custom : Option (String → String → Option String))
    (output : String) (pane : TmuxPane) (st : LiaisonStreamState) :
    List TakopiEvent × TmuxPane × LiaisonStreamState :=
  parsePaneOutputGo custom output (pySplitlines output.data) pane st

/-- The guard of the `_poll_loop` `while` (the loop body runs only while
this is true; `run_impl` likewise breaks out of the event stream as soon
as `state.completed` is set). -/
def pollLoopGuard (st : LiaisonStreamState) : Bool :=
  !st.completed

/-- Split a character list on `'/'`, keeping all pieces (including
empty ones). -/
def splitSlash : List Char → List (List Char)
  | [] => [[]]
  | c :: rest =>
    if c = '/' then [] :: splitSlash rest
    else
      match splitSlash rest with
      | [] => [[c]]
      | l :: ls => (c :: l) :: ls

/-- The path components pathlib extracts from one string argument of a
`/` join: split on `'/'`, dropping empty and `"."` segments (pathlib's
PurePosixPath normalization); `".."` segments are kept, as pathlib
keeps them. -/
def pathSegsOf (s : String) : List String :=
  ((splitSlash s.data).map String.mk).filter
    (fun seg => !(seg = "" || seg = "."))

/-- Does the string denote an absolute path (pathlib: a leading `/`
replaces everything joined so far)? -/
def strStartsWithSlash (s : String) : Bool :=
  match s.data with
  | [] => false
  | c :: _ => c = '/'

/-- A pathlib path relative to the coordination folder: when some
joined argument was absolute, `absolute` is set and `segs` are relative
to the filesystem root instead (such a path is no longer under the
folder). -/
structure JoinedPath where
  absolute : Bool
  segs : List String
deriving DecidableEq, Repr

/-- One pathlib `/` join step. -/
def pyJoin (p : JoinedPath) (s : String) : JoinedPath :=
  if strStartsWithSlash s then ⟨true, pathSegsOf s⟩
  else ⟨p.absolute, p.segs ++ pathSegsOf s⟩

/-- `s.endswith(suffix)` over character lists. -/
def strEndsWith (s suffix : String) : Bool :=
  suffix.data.reverse.isPrefixOf s.data.reverse

/-- Does the filename start with a dot (glob `*` skips hidden files)? -/
def strStartsWithDot (s : String) : Bool :=
  match s.data with
  | [] => false
  | c :: _ => c = '.'

/-- `LiaisonRunner._check_inbox` lists `coordination/inbox/*.json`: a
file is drained exactly when its path, relative to the coordination
folder, is a non-hidden `.json` file directly inside
`coordination/inbox` (glob `*` matches within one component and skips
dot-files).  An `absolute` path is not under the folder-relative inbox
in this model; `".."` components are carried unresolved, so statements
about paths containing them are made only under hypotheses excluding
them. -/
def checkInboxDrains (p : JoinedPath) : Bool :=
  match p.absolute, p.segs with
  | false, [a, b, f] =>
    a = "coordination" && b = "inbox" && strEndsWith f ".json" &&
      !(strStartsWithDot f)
  | _, _ => false

/-! ## Inter-liaison coordinator (`takopi/runners/liaison_coordination.py`) -/

/-- `CoordinationMessage` (timestamps are abstract integral seconds). -/
structure CoordinationMessage where
  messageId : String
  fromLiaison : String
  toLiaison : Option String
  timestamp : Nat
  type : String
  payload : List (String × PyVal)
  expiresAt : Option Nat := none
deriving DecidableEq, Repr

/-- A file of a coordination directory: its name and its parsed content
(`none` models unreadable or structurally invalid JSON, which
`_read_message` turns into `None`). -/
structure MsgFile where
  name : String
  content : Option CoordinationMessage
deriving DecidableEq, Repr

/-- The `<ms-timestamp>_<from>.json` filename `send_message` builds. -/
def sendFileName (self : String) (m : CoordinationMessage) : String :=
  toString (m.timestamp * 1000) ++ "_" ++ self ++ ".json"

/-- `LiaisonCoordinator.send_message`: the path, relative to the
coordination folder, the message file is written to —
`folder / "coordination" / "inbox" / to_liaison / filename` for a
direct message (`…/"broadcast"/filename` for a broadcast), with each
`/` join performing pathlib's segment normalization via `pyJoin`. -/
def sendMessagePath (self : String) (m : CoordinationMessage) : JoinedPath :=
  match m.toLiaison with
  | none =>
    pyJoin (pyJoin (pyJoin ⟨false, []⟩ "coordination") "broadcast")
      (sendFileName self m)
  | some t =>
    pyJoin (pyJoin (pyJoin (pyJoin ⟨false, []⟩ "coordination") "inbox") t)
      (sendFileName self m)

/-- `LiaisonCoordinator._read_message`: parse, then drop expired
messages and the coordinator's own messages. -/
def readMessage (self : String) (now : Nat) (f : MsgFile) :
    Option CoordinationMessage :=
  match f.content with
  | none => none
  | some m =>
    if (match m.expiresAt with
        | some e => decide (e < now)
        | none => false) then none
    else if m.fromLiaison = self then none
    else some m

/-- The direct-inbox loop of `receive_messages`: in listing order,
collect each valid message and delete its file; files whose read
returns `None` are kept.  Returns (yielded messages, surviving files). -/
def receiveDirect (self : String) (now : Nat) :
    List MsgFile → List CoordinationMessage × List MsgFile
  | [] => ([], [])
  | f :: rest =>
    let r := receiveDirect self now rest
    match readMessage self now f with
    | some m => (m :: r.1, r.2)
    | none => (r.1, f :: r.2)

/-- The broadcast loop of `receive_messages`: files are never deleted;
ids of yielded messages are recorded in the in-memory read set
immediately, so a second file with the same id in the same listing is
already skipped.  Returns (yielded messages, updated read set). -/
def receiveBroadcast (self : String) (now : Nat) :
    List MsgFile → List String → List CoordinationMessage × List String
  | [], readIds => ([], readIds)
  | f :: rest, readIds =>
    match readMessage self now f with
    | some m =>
      if readIds.contains m.messageId then
        receiveBroadcast self now rest readIds
      else
        let r := receiveBroadcast self now rest (m.messageId :: readIds)
        (m :: r.1, r.2)
    | none => receiveBroadcast self now rest readIds

/-- `LiaisonCoordinator.receive_messages`: direct inbox first, then
broadcast.  Returns (messages in yield order, surviving direct files,
updated broadcast read set). -/
def receiveMessages (self : String) (now : Nat) (direct broadcast : List MsgFile)
    (readIds : List String) :
    List CoordinationMessage × List MsgFile × List String :=
  let d := receiveDirect self now direct
  let b := receiveBroadcast self now broadcast readIds
  (d.1 ++ b.1, d.2, b.2)

/-- One call to `receive_messages` in a lifetime trace: the clock value
and the two directory listings the call observes. -/
structure ReceiveCall where
  now : Nat
  direct : List MsgFile
  broadcast : List MsgFile
deriving DecidableEq, Repr

/-- A lifetime of `receive_messages` calls on one coordinator instance,
threading the in-memory broadcast read set; for each call the direct
and broadcast yields are recorded. -/
def runReceives (self : String) (readIds : List String) :
    List ReceiveCall →
      List (ReceiveCall × List CoordinationMessage × List CoordinationMessage)
  | [] => []
  | c :: cs =>
    let d := receiveDirect self c.now c.direct
    let b := receiveBroadcast self c.now c.broadcast readIds
    (c, d.1, b.1) :: runReceives self b.2 cs

/-- One record of `state/task_registry.json`. -/
structure TaskEntry where
  claimedBy : String
  claimedAt : Nat
  description : String
  status : String
  completedAt : Option Nat := none
  result : Option String := none
deriving DecidableEq, Repr

/-- The task registry (a JSON object, i.e. a `dict`). -/
abbrev TaskRegistry := List (String × TaskEntry)

/-- `LiaisonCoordinator.claim_task` (the body under the file lock):
refuse when the task exists with status `in_progress`, else overwrite
the record and succeed. -/
def claimTask (self : String) (now : Nat) (reg : TaskRegistry)
    (taskId description : String) : Bool × TaskRegistry :=
  let alreadyClaimed : Bool :=
    match alistGet reg taskId with
    | some existing => existing.status = "in_progress"
    | none => false
  if alreadyClaimed then (false, reg)
  else
    (true, alistSet reg taskId
      { claimedBy := self
        claimedAt := now
        description := description
        status := "in_progress" })

/-- `LiaisonCoordinator.complete_task` (the body under the file lock):
mark an existing task completed; a missing task id is a no-op. -/
def completeTask (now : Nat) (reg : TaskRegistry) (taskId : String)
    (result : Option String) : TaskRegistry :=
  match alistGet reg taskId with
  | none => reg
  | some e =>
    alistSet reg taskId
      { e with
        status := "completed"
        completedAt := some now
        result := match result with
          | some r => some r
          | none => e.result }

/-! ## Progress tracker (`takopi/progress.py`) -/

/-- `ActionState`. -/
structure ActionState where
  action : Action
  phase : String
  ok : Option Bool
  displayPhase : String
  completed : Bool
  firstSeen : Nat
  lastUpdate : Nat
deriving DecidableEq, Repr

/-- `InputRequestState`. -/
structure InputRequestState where
  requestId : String
  question : String
  source : String
  urgency : String
  seenAt : Nat
deriving DecidableEq, Repr

/-- The mutable state of `ProgressTracker`. -/
structure Tracker where
  engine : String
  resume : Option ResumeToken := none
  actionCount : Nat := 0
  actions : List (String × ActionState) := []
  inputRequests : List (String × InputRequestState) := []
  seq : Nat := 0
deriving DecidableEq, Repr

/-- `ProgressTracker(engine=…)`. -/
def freshTracker (engine : String) : Tracker :=
  { engine := engine }

/-- `ProgressTracker.note_event`: returns the updated tracker and the
bool the method returns. -/
def noteEvent (t : Tracker) (e : TakopiEvent) : Tracker × Bool :=
  match e with
  | .started _ resume _ _ => ({ t with resume := some resume }, true)
  | .action _ action phase ok _ _ =>
    if action.kind = "turn" then (t, false)
    else if action.id = "" then (t, false)
    else
      let completed := phase = "completed"
      let existing := alistGet t.actions action.id
      let hasOpen := match existing with
        | some st => !st.completed
        | none => false
      let isUpdate := phase = "updated" || (phase = "started" && hasOpen)
      let displayPhase := if isUpdate && !completed then "updated" else phase
      let seq := t.seq + 1
      let (firstSeen, count) :=
        match existing with
        | none => (seq, t.actionCount + 1)
        | some st => (st.firstSeen, t.actionCount)
      ({ t with
        seq := seq
        actionCount := count
        actions := alistSet t.actions action.id
          ⟨action, phase, ok, displayPhase, completed, firstSeen, seq⟩ }, true)
  | .inputRequest _ requestId question source _ _ urgency =>
    let seq := t.seq + 1
    ({ t with
      seq := seq
      inputRequests := alistSet t.inputRequests requestId
        ⟨requestId, question, source, urgency, seq⟩ }, true)
  | _ => (t, false)

/-- Feeding an event sequence to the tracker. -/
def foldTracker (t : Tracker) : List TakopiEvent → Tracker
  | [] => t
  | e :: es => foldTracker (noteEvent t e).1 es

/-- The action id an event contributes to the action map: `some id` for
`action` events whose kind is not `turn` and whose id is non-empty. -/
def qualifyingId : TakopiEvent → Option String
  | .action _ action _ _ _ _ =>
    if action.kind = "turn" then none
    else if action.id = "" then none
    else some action.id
  | _ => none

/-- Is the event an `action` event that `note_event` drops (kind `turn`
or empty id)? -/
def isDroppedAction : TakopiEvent → Bool
  | .action _ action _ _ _ _ => action.kind = "turn" || action.id = ""
  | _ => false

/-! ## Session card builder (`takopi/session_card.py`) -/

/-- `AgentBadge`. -/
structure AgentBadge where
  engine : String
  status : String
  stepCount : Nat := 0
  lastActivity : Option Nat := none
deriving DecidableEq, Repr

/-- `ActivityItem`. -/
structure ActivityItem where
  timestamp : Nat
  engine : String
  kind : String
  summary : String
  detail : Option (List (String × PyVal)) := none
deriving DecidableEq, Repr

/-- `PendingInput`. -/
structure PendingInput where
  requestId : String
  question : String
  source : String
  urgency : String
  options : Option (List String) := none
  context : Option String := none
  receivedAt : Nat
deriving DecidableEq, Repr

/-- The mutable fields of `SessionCardBuilder`. -/
structure SessionCardBuilder where
  sessionId : String
  startedAt : Nat
  primaryEngine : String
  badges : List (String × AgentBadge) := []
  activity : List ActivityItem := []
  pendingInputs : List (String × PendingInput) := []
  contextLine : Option String := none
  resumeLine : Option String := none
  status : String := "working"
  errorMessage : Option String := none
  maxActivityItems : Nat := 50
deriving DecidableEq, Repr

/-- `SessionCardBuilder(...)` followed by `__post_init__`, which seeds
the primary engine's badge. -/
def mkBuilder (sessionId : String) (startedAt : Nat) (primaryEngine : String)
    (now : Nat) : SessionCardBuilder :=
  { sessionId := sessionId, startedAt := startedAt,
    primaryEngine := primaryEngine,
    badges := [(primaryEngine, ⟨primaryEngine, "active", 0, some now⟩)] }

/-- The mutating operations of `SessionCardBuilder` (an
`addPendingInput` op carries the fields of the `InputRequestEvent`
argument). -/
inductive BuilderOp where
  | addAgent (engine status : String)
  | updateAgentStatus (engine status : String)
  | incrementStep (engine : String)
  | addActivity (engine kind summary : String)
      (detail : Option (List (String × PyVal)))
  | addPendingInput (requestId question source urgency : String)
      (options : Option (List String)) (context : Option String)
  | removePendingInput (requestId : String)
  | setContext (c : Option String)
  | setResume (r : Option String)
  | setComplete (ok : Bool) (error : Option String)
  | setCancelled
deriving DecidableEq, Repr

/-- One `SessionCardBuilder` method call (`now` is the `time.time()`
the call observes). -/
def applyOp (b : SessionCardBuilder) (now : Nat) : BuilderOp → SessionCardBuilder
  | .addAgent engine status =>
    let stepCount := match alistGet b.badges engine with
      | some e => e.stepCount
      | none => 0
    let badge : AgentBadge := ⟨engine, status, stepCount, some now⟩
    { b with badges := alistSet b.badges engine badge }
  | .updateAgentStatus engine status =>
    match alistGet b.badges engine with
    | some old =>
      let badge : AgentBadge := ⟨engine, status, old.stepCount, some now⟩
      { b with badges := alistSet b.badges engine badge }
    | none => b
  | .incrementStep engine =>
    match alistGet b.badges engine with
    | some old =>
      let badge : AgentBadge := ⟨engine, old.status, old.stepCount + 1, some now⟩
      { b with badges := alistSet b.badges engine badge }
    | none =>
      let badge : AgentBadge := ⟨engine, "active", 1, some now⟩
      { b with badges := alistSet b.badges engine badge }
  | .addActivity engine kind summary detail =>
    let a := b.activity ++ [⟨now, engine, kind, summary, detail⟩]
    { b with activity :=
        if a.length > b.maxActivityItems then a.drop (a.length - b.maxActivityItems)
        else a }
  | .addPendingInput requestId question source urgency options context =>
    let opts := match options with
      | some l => if l.isEmpty then none else some l
      | none => none
    { b with
      pendingInputs := alistSet b.pendingInputs requestId
        ⟨requestId, question, source, urgency, opts, context, now⟩
      status := "waiting_input" }
  | .removePendingInput requestId =>
    let remaining := b.pendingInputs.filter (fun kv => !(kv.1 = requestId))
    { b with
      pendingInputs := remaining
      status := if remaining.isEmpty then "working" else b.status }
  | .setContext c => { b with contextLine := c }
  | .setResume r => { b with resumeLine := r }
  | .setComplete ok error =>
    let b1 :=
      if pyTruthyStrOpt error then
        { b with status := "error", errorMessage := error }
      else if ok then { b with status := "done" }
      else { b with status := "error" }
    let doneBadges := b1.badges.map
      (fun kv => (kv.1, { kv.2 with status := "done", lastActivity := some now }))
    { b1 with badges := doneBadges }
  | .setCancelled => { b with status := "cancelled" }

/-! ## Helper lemmas -/

theorem any_key_iff_mem {α : Type} (l : List (String × α)) (k : String) :
    (l.any (fun kv => kv.1 = k) = true) ↔ k ∈ l.map Prod.fst := by
  induction l with
  | nil => simp
  | cons x rest ih =>
    by_cases hx : x.1 = k
    · simp [List.any_cons, hx]
    · have hdx : (decide (x.1 = k)) = false := by simp [hx]
      simp only [List.any_cons, hdx, Bool.false_or, List.map_cons,
        List.mem_cons, ih]
      constructor
      · exact Or.inr
      · rintro (h | h)
        · exact absurd h.symm hx
        · exact h

theorem alistGet_eq_none_any {α : Type} (l : List (String × α)) (k : String) :
    alistGet l k = none ↔ l.any (fun kv => kv.1 = k) = false := by
  induction l with
  | nil => simp [alistGet]
  | cons x rest ih =>
    by_cases hx : x.1 = k
    · have hdx : (decide (x.1 = k)) = true := by simp [hx]
      have hfind : List.find? (fun kv => decide (kv.1 = k)) (x :: rest) =
          some x := List.find?_cons_of_pos rest hdx
      simp [alistGet, hfind, List.any_cons, hdx]
    · have hdx : (decide (x.1 = k)) = false := by simp [hx]
      have hfind : List.find? (fun kv => decide (kv.1 = k)) (x :: rest) =
          List.find? (fun kv => decide (kv.1 = k)) rest :=
        List.find?_cons_of_neg rest (by simp [hx])
      simp only [alistGet, hfind, List.any_cons, hdx, Bool.false_or]
      exact ih

theorem alistGet_eq_none {α : Type} (l : List (String × α)) (k : String) :
    alistGet l k = none ↔ k ∉ l.map Prod.fst := by
  rw [alistGet_eq_none_any, ← any_key_iff_mem]
  simp only [Bool.not_eq_true]

theorem find?_map_set {α : Type} (l : List (String × α)) (k : String) (v : α) :
    ((l.map (fun kv => if kv.1 = k then (k, v) else kv)).find?
        (fun kv => kv.1 = k)) =
      if l.any (fun kv => kv.1 = k) then some (k, v) else none := by
  induction l with
  | nil => rfl
  | cons x rest ih =>
    by_cases hx : x.1 = k
    · have hdx : (decide (x.1 = k)) = true := by simp [hx]
      have hfind : List.find? (fun kv => decide (kv.1 = k))
          ((k, v) :: rest.map (fun kv => if kv.1 = k then (k, v) else kv)) =
          some (k, v) :=
        List.find?_cons_of_pos _ (by simp)
      rw [List.map_cons, if_pos hx, hfind, List.any_cons, hdx]
      simp
    · have hdx : (decide (x.1 = k)) = false := by simp [hx]
      have hfind : List.find? (fun kv => decide (kv.1 = k))
          (x :: rest.map (fun kv => if kv.1 = k then (k, v) else kv)) =
          List.find? (fun kv => decide (kv.1 = k))
            (rest.map (fun kv => if kv.1 = k then (k, v) else kv)) :=
        List.find?_cons_of_neg _ (by simp [hx])
      rw [List.map_cons, if_neg hx, hfind, ih, List.any_cons, hdx,
        Bool.false_or]

theorem find?_append_right {α : Type} (l : List (String × α)) (k : String)
    (v : α) (h : l.any (fun kv => kv.1 = k) = false) :
    ((l ++ [(k, v)]).find? (fun kv => kv.1 = k)) = some (k, v) := by
  induction l with
  | nil => simp [List.find?]
  | cons x rest ih =>
    simp only [List.any_cons, Bool.or_eq_false_iff] at h
    obtain ⟨hx, hrest⟩ := h
    simpa [List.find?, hx] using ih hrest

theorem alistGet_set_self {α : Type} (l : List (String × α)) (k : String)
    (v : α) : alistGet (alistSet l k v) k = some v := by
  by_cases h : l.any (fun kv => kv.1 = k) = true
  · have hset : alistSet l k v =
        l.map (fun kv => if kv.1 = k then (k, v) else kv) := by
      simp [alistSet, h]
    rw [hset]
    unfold alistGet
    rw [find?_map_set, if_pos h]
    rfl
  · have h' : l.any (fun kv => kv.1 = k) = false := by
      cases hb : l.any (fun kv => kv.1 = k)
      · rfl
      · exact absurd hb h
    have hset : alistSet l k v = l ++ [(k, v)] := by
      simp [alistSet, h']
    rw [hset]
    unfold alistGet
    rw [find?_append_right l k v h']
    rfl

theorem alistSet_keys {α : Type} (l : List (String × α)) (k : String) (v : α) :
    (alistSet l k v).map Prod.fst =
      if k ∈ l.map Prod.fst then l.map Prod.fst else l.map Prod.fst ++ [k] := by
  by_cases h : k ∈ l.map Prod.fst
  · have ha : l.any (fun kv => kv.1 = k) = true := (any_key_iff_mem l k).mpr h
    have hset : alistSet l k v =
        l.map (fun kv => if kv.1 = k then (k, v) else kv) := by
      simp [alistSet, ha]
    rw [hset, if_pos h, List.map_map]
    apply List.map_congr_left
    intro x _
    by_cases hx : x.1 = k
    · simp [Function.comp, hx]
    · simp [Function.comp, hx]
  · have ha : l.any (fun kv => kv.1 = k) = false := by
      cases hb : l.any (fun kv => kv.1 = k)
      · rfl
      · exact absurd ((any_key_iff_mem l k).mp hb) h
    have hset : alistSet l k v = l ++ [(k, v)] := by
      simp [alistSet, ha]
    rw [hset, if_neg h]
    simp

/-! ## C1 -/

/-- C1: `should_escalate` returns true whenever an `always_escalate`
pattern matches the concatenated question-and-context text (regardless
of `auto_approve`), false when no `always_escalate` pattern matches but
an `auto_approve` pattern does, follows the custom decider when it
answers `"escalate"` or `"auto"`, and escalates by default when nothing
matched and no custom decider decided. -/
theorem c1_should_escalate_decision
    (custom : Option (String → String → Option String)) (q : String)
    (ctx : Option String) :
    (alwaysEscalateMatch (fullText q ctx) = true →
      shouldEscalate custom q ctx = true) ∧
    (alwaysEscalateMatch (fullText q ctx) = false →
      autoApproveMatch (fullText q ctx) = true →
      shouldEscalate custom q ctx = false) ∧
    (∀ d, alwaysEscalateMatch (fullText q ctx) = false →
      autoApproveMatch (fullText q ctx) = false → custom = some d →
      d q (ctx.getD "") = some "escalate" →
      shouldEscalate custom q ctx = true) ∧
    (∀ d, alwaysEscalateMatch (fullText q ctx) = false →
      autoApproveMatch (fullText q ctx) = false → custom = some d →
      d q (ctx.getD "") = some "auto" →
      shouldEscalate custom q ctx = false) ∧
    (alwaysEscalateMatch (fullText q ctx) = false →
      autoApproveMatch (fullText q ctx) = false →
      (∀ d, custom = some d → d q (ctx.getD "") ≠ some "escalate" ∧
        d q (ctx.getD "") ≠ some "auto") →
      shouldEscalate custom q ctx = true) := by
  refine ⟨fun h1 => ?_, fun h1 h2 => ?_, fun d h1 h2 hc hd => ?_,
    fun d h1 h2 hc hd => ?_, fun h1 h2 hno => ?_⟩
  · simp [shouldEscalate, h1]
  · simp [shouldEscalate, h1, h2]
  · subst hc
    simp [shouldEscalate, h1, h2, hd]
  · subst hc
    simp [shouldEscalate, h1, h2, hd]
  · cases custom with
    | none => simp [shouldEscalate, h1, h2]
    | some d =>
      obtain ⟨hne, hna⟩ := hno d rfl
      cases hdq : d q (ctx.getD "") with
      | none => simp [shouldEscalate, h1, h2, hdq]
      | some s =>
        have hs1 : ¬(s = "escalate") := fun h => hne (by rw [hdq, h])
        have hs2 : ¬(s = "auto") := fun h => hna (by rw [hdq, h])
        simp [shouldEscalate, h1, h2, hdq, hs1, hs2]

/-- Witness for C1 at concrete inputs: "Run tests?" is auto-approved
(the test-runner pattern matches, no always-escalate pattern does), and
"Frobnicate the gizmo" escalates by default with no decider. -/
theorem c1_should_escalate_decision_witness :
    shouldEscalate none "Run tests?" none = false ∧
      shouldEscalate none "Frobnicate the gizmo" none = true :=
  ⟨(c1_should_escalate_decision none "Run tests?" none).2.1 (by decide)
      (by decide),
    (c1_should_escalate_decision none "Frobnicate the gizmo" none).2.2.2.2
      (by decide) (by decide) (fun d h => by cases h)⟩

/-! ## C2 -/

/-- C2 (code bug): in captain's-chair mode the liaison is documented to
never auto-complete, yet `_parse_pane_output` still sets
`state.completed` (and stores the pane buffer as `final_answer`) as soon
as a pane line contains a completion marker, which makes the
`_poll_loop` guard and `run_impl` end the run.  Evaluated at the
failing input: a pane whose output is the single line `"Done."`. -/
theorem c2_completion_marker_completes_run :
    (parsePaneOutput none "Done."
        ⟨"takopi_liaison_x", 0, 0, "claude", "liaison", none, "", none⟩
        { sessionId := some "liaison_x",
          tmuxSession := some "takopi_liaison_x" }).2.2.completed = true ∧
    (parsePaneOutput none "Done."
        ⟨"takopi_liaison_x", 0, 0, "claude", "liaison", none, "", none⟩
        { sessionId := some "liaison_x",
          tmuxSession := some "takopi_liaison_x" }).2.2.finalAnswer = "Done." ∧
    pollLoopGuard (parsePaneOutput none "Done."
        ⟨"takopi_liaison_x", 0, 0, "claude", "liaison", none, "", none⟩
        { sessionId := some "liaison_x",
          tmuxSession := some "takopi_liaison_x" }).2.2 = false := by
  refine ⟨?_, ?_, ?_⟩ <;> decide

/-! ## C3 -/

/-- C3: `claim_task` refuses (and leaves the registry unchanged) exactly
when the task is already recorded with status `in_progress`; otherwise
it records the caller as claimant with status `in_progress` and
succeeds; and after `complete_task`, a fresh claim of the same task id
succeeds again. -/
theorem c3_claim_task (reg : TaskRegistry) (self : String) (now : Nat)
    (taskId description : String) :
    (∀ e, alistGet reg taskId = some e → e.status = "in_progress" →
      claimTask self now reg taskId description = (false, reg)) ∧
    ((∀ e, alistGet reg taskId = some e → e.status ≠ "in_progress") →
      (claimTask self now reg taskId description).1 = true ∧
      alistGet (claimTask self now reg taskId description).2 taskId =
        some ⟨self, now, description, "in_progress", none, none⟩) ∧
    (∀ now2 result self2 now3 desc2,
      (claimTask self2 now3 (completeTask now2 reg taskId result) taskId
        desc2).1 = true) := by
  refine ⟨fun e hget hstat => ?_, fun hfree => ?_,
    fun now2 result self2 now3 desc2 => ?_⟩
  · simp [claimTask, hget, hstat]
  · have hnc : (match alistGet reg taskId with
        | some existing => decide (existing.status = "in_progress")
        | none => false) = false := by
      cases hget : alistGet reg taskId with
      | none => rfl
      | some e => simpa using hfree e hget
    constructor
    · simp [claimTask, hnc]
    · simp [claimTask, hnc, alistGet_set_self]
  · cases hget : alistGet reg taskId with
    | none =>
      have hcomp : completeTask now2 reg taskId result = reg := by
        simp [completeTask, hget]
      rw [hcomp]
      simp [claimTask, hget]
    | some e =>
      have hcomp : alistGet (completeTask now2 reg taskId result) taskId =
          some ⟨e.claimedBy, e.claimedAt, e.description, "completed",
            some now2,
            match result with
            | some r => some r
            | none => e.result⟩ := by
        simp [completeTask, hget, alistGet_set_self]
      simp [claimTask, hcomp]

/-- Witness for C3: with `t1` in progress, a second claim fails and
leaves the registry unchanged; completing and reclaiming succeeds. -/
theorem c3_claim_task_witness :
    claimTask "B" 2 [("t1", ⟨"A", 1, "d", "in_progress", none, none⟩)]
        "t1" "d2" =
      (false, [("t1", ⟨"A", 1, "d", "in_progress", none, none⟩)]) ∧
    (claimTask "B" 4
        (completeTask 3 [("t1", ⟨"A", 1, "d", "in_progress", none, none⟩)]
          "t1" (some "r")) "t1" "d2").1 = true :=
  ⟨(c3_claim_task [("t1", ⟨"A", 1, "d", "in_progress", none, none⟩)]
      "B" 2 "t1" "d2").1 ⟨"A", 1, "d", "in_progress", none, none⟩
      (by decide) (by decide),
    (c3_claim_task [("t1", ⟨"A", 1, "d", "in_progress", none, none⟩)]
      "B" 2 "t1" "d2").2.2 3 (some "r") "B" 4 "d2"⟩

/-! ## C5 -/

/-- C5 counterexample: `receive_messages` iterates the direct inbox in
directory-listing order (`Path.glob` yields entries in an arbitrary
OS-determined order and the source — unlike `_check_inbox` in the
liaison runner — does not sort them): with the listing
`["b.json", "a.json"]` the yields come in listing order, while
processing the sorted listing `["a.json", "b.json"]` yields the reverse;
and a file whose message is filtered out (here: sent by the receiver
itself) is parsed but not deleted. -/
theorem c5_counterexample :
    (receiveDirect "A" 0
        [⟨"b.json", some ⟨"mb", "B", some "A", 2, "question", [], none⟩⟩,
          ⟨"a.json", some ⟨"ma", "B", some "A", 1, "question", [], none⟩⟩]).1 =
      [⟨"mb", "B", some "A", 2, "question", [], none⟩,
        ⟨"ma", "B", some "A", 1, "question", [], none⟩] ∧
    (receiveDirect "A" 0
        [⟨"a.json", some ⟨"ma", "B", some "A", 1, "question", [], none⟩⟩,
          ⟨"b.json", some ⟨"mb", "B", some "A", 2, "question", [], none⟩⟩]).1 =
      [⟨"ma", "B", some "A", 1, "question", [], none⟩,
        ⟨"mb", "B", some "A", 2, "question", [], none⟩] ∧
    ([⟨"mb", "B", some "A", 2, "question", [], none⟩,
        ⟨"ma", "B", some "A", 1, "question", [], none⟩] : List CoordinationMessage) ≠
      [⟨"ma", "B", some "A", 1, "question", [], none⟩,
        ⟨"mb", "B", some "A", 2, "question", [], none⟩] ∧
    (receiveDirect "A" 0
        [⟨"s.json", some ⟨"ms", "A", some "A", 3, "question", [], none⟩⟩]).2 =
      [⟨"s.json", some ⟨"ms", "A", some "A", 3, "question", [], none⟩⟩] := by
  refine ⟨by decide, by decide, by decide, by decide⟩

/-- C5 (amended): the direct-inbox loop processes the files in
directory-listing order; it yields exactly the files whose message is
successfully parsed, unexpired and not from the receiver, and deletes
precisely those files (so a yielded file cannot be yielded again), while
files whose read returns `None` survive undeleted. -/
theorem c5_receive_direct_amended (self : String) (now : Nat)
    (files : List MsgFile) :
    (receiveDirect self now files).1 =
      files.filterMap (readMessage self now) ∧
    (receiveDirect self now files).2 =
      files.filter (fun f => (readMessage self now f).isNone) := by
  induction files with
  | nil => exact ⟨rfl, rfl⟩
  | cons f rest ih =>
    obtain ⟨ih1, ih2⟩ := ih
    cases h : readMessage self now f with
    | none =>
      constructor
      · simp [receiveDirect, h, ih1]
      · simp [receiveDirect, List.filter_cons, h, ih2]
    | some m =>
      constructor
      · simp [receiveDirect, h, ih1]
      · simp [receiveDirect, List.filter_cons, h, ih2]

/-! ## C9 -/

/-- C9 counterexample: starting from a cancelled card,
`remove_pending_input` on an id that is not pending leaves no pending
inputs and therefore rewrites the status to `working` — a
`cancelled → working` transition, which the claimed transition system
does not allow. -/
theorem c9_counterexample :
    (applyOp (mkBuilder "s" 0 "codex" 0) 1 .setCancelled).status =
      "cancelled" ∧
    (applyOp (applyOp (mkBuilder "s" 0 "codex" 0) 1 .setCancelled) 2
        (.removePendingInput "x")).status = "working" := by
  refine ⟨?_, ?_⟩ <;> decide

/-- C9 (amended): the card status is written unconditionally by exactly
four operations — `add_pending_input` always sets `waiting_input`,
`remove_pending_input` sets `working` whenever no pending inputs remain
after the removal, `set_complete` sets `error` when an error string is
given or `ok` is false and `done` otherwise, and `set_cancelled` sets
`cancelled` — each from whatever the current status is (so transitions
such as `cancelled → working` or `done → waiting_input» are possible);
no other operation changes the status. -/
theorem c9_status_transitions_amended (b : SessionCardBuilder) (now : Nat)
    (op : BuilderOp) :
    (applyOp b now op).status =
      match op with
      | .addPendingInput _ _ _ _ _ _ => "waiting_input"
      | .removePendingInput rid =>
        if (b.pendingInputs.filter (fun kv => !(kv.1 = rid))).isEmpty then
          "working"
        else b.status
      | .setComplete ok error =>
        if pyTruthyStrOpt error then "error" else if ok then "done" else "error"
      | .setCancelled => "cancelled"
      | _ => b.status := by
  cases op with
  | addAgent engine status => simp [applyOp]
  | updateAgentStatus engine status =>
    cases h : alistGet b.badges engine <;> simp [applyOp, h]
  | incrementStep engine =>
    cases h : alistGet b.badges engine <;> simp [applyOp, h]
  | addActivity engine kind summary detail => simp [applyOp]
  | addPendingInput a1 a2 a3 a4 a5 a6 => simp [applyOp]
  | removePendingInput rid => simp [applyOp]
  | setContext c => simp [applyOp]
  | setResume r => simp [applyOp]
  | setComplete ok error =>
    by_cases h : pyTruthyStrOpt error = true
    · simp [applyOp, h]
    · have h' : pyTruthyStrOpt error = false := by
        cases hb : pyTruthyStrOpt error
        · rfl
        · exact absurd hb h
      cases ok <;> simp [applyOp, h']
  | setCancelled => simp [applyOp]

/-! ## C10 -/

theorem splitSlash_no_slash :
    ∀ l : List Char, (∀ c ∈ l, ¬ c = '/') → splitSlash l = [l] := by
  intro l
  induction l with
  | nil => intro _; rfl
  | cons c rest ih =>
    intro h
    have hc : ¬ c = '/' := h c (List.mem_cons_self _ _)
    have hrest := ih (fun x hx => h x (List.mem_cons_of_mem _ hx))
    rw [splitSlash, if_neg hc, hrest]

theorem digitChar_ne_slash (n : Nat) : Nat.digitChar n ≠ '/' := by
  by_cases h : n < 16
  · interval_cases n <;> decide
  · have h0 : ¬ n = 0 := by omega
    have h1 : ¬ n = 1 := by omega
    have h2 : ¬ n = 2 := by omega
    have h3 : ¬ n = 3 := by omega
    have h4 : ¬ n = 4 := by omega
    have h5 : ¬ n = 5 := by omega
    have h6 : ¬ n = 6 := by omega
    have h7 : ¬ n = 7 := by omega
    have h8 : ¬ n = 8 := by omega
    have h9 : ¬ n = 9 := by omega
    have h10 : ¬ n = 10 := by omega
    have h11 : ¬ n = 11 := by omega
    have h12 : ¬ n = 12 := by omega
    have h13 : ¬ n = 13 := by omega
    have h14 : ¬ n = 14 := by omega
    have h15 : ¬ n = 15 := by omega
    unfold Nat.digitChar
    rw [if_neg h0, if_neg h1, if_neg h2, if_neg h3, if_neg h4, if_neg h5,
      if_neg h6, if_neg h7, if_neg h8, if_neg h9, if_neg h10, if_neg h11,
      if_neg h12, if_neg h13, if_neg h14, if_neg h15]
    decide

theorem toDigitsCore_ne_slash :
    ∀ (fuel n : Nat) (acc : List Char), (∀ c ∈ acc, c ≠ '/') →
      ∀ c ∈ Nat.toDigitsCore 10 fuel n acc, c ≠ '/' := by
  intro fuel
  induction fuel with
  | zero =>
    intro n acc hacc c hc
    exact hacc c hc
  | succ fuel ih =>
    intro n acc hacc c hc
    rw [Nat.toDigitsCore] at hc
    by_cases hz : n / 10 = 0
    · rw [if_pos hz] at hc
      rcases List.mem_cons.mp hc with h0 | h1
      · rw [h0]
        exact digitChar_ne_slash _
      · exact hacc c h1
    · rw [if_neg hz] at hc
      refine ih (n / 10) ((n % 10).digitChar :: acc) ?_ c hc
      intro x hx
      rcases List.mem_cons.mp hx with h0 | h1
      · rw [h0]
        exact digitChar_ne_slash _
      · exact hacc x h1

theorem natRepr_ne_slash (k : Nat) : ∀ c ∈ (toString k).data, c ≠ '/' := by
  intro c hc
  have hdef : (toString k).data = Nat.toDigitsCore 10 (k + 1) k [] := rfl
  rw [hdef] at hc
  exact toDigitsCore_ne_slash (k + 1) k [] (by simp) c hc

/-- C10 counterexample: the claim fails at `to_liaison = ""`.  The
recipient id is non-null, but pathlib drops empty path components, so
`folder / "coordination" / "inbox" / "" / filename` is the same file as
`coordination/inbox/<filename>` — directly inside the directory whose
`*.json` files `_check_inbox` parses, returns and deletes.  The message
is therefore not placed in a per-recipient subdirectory and IS drained
by the runner. -/
theorem c10_counterexample :
    sendMessagePath "A" ⟨"m1", "A", some "", 7, "question", [], none⟩ =
      ⟨false, ["coordination", "inbox", "7000_A.json"]⟩ ∧
    checkInboxDrains
      (sendMessagePath "A" ⟨"m1", "A", some "", 7, "question", [], none⟩) =
      true := by
  refine ⟨by decide, by decide⟩

/-- C10 (amended): for every direct message whose recipient id is a
plain relative path — it normalizes to at least one component, does not
start with `/`, and contains no `..` component (so pathlib's join and
the filesystem agree with the component model) — and whose sender id
contains no `/`, the file is written to the per-recipient subdirectory
`coordination/inbox/<to_liaison>/…`, strictly below the directory whose
`*.json` files `_check_inbox` drains; hence such a direct message is
never returned by the runner's inbox drain. -/
theorem c10_direct_not_drained_amended (self : String)
    (m : CoordinationMessage) (t : String)
    (hto : m.toLiaison = some t)
    (habs : strStartsWithSlash t = false)
    (hne : pathSegsOf t ≠ [])
    (hdd : ".." ∉ pathSegsOf t)
    (hself : ∀ c ∈ self.data, ¬ c = '/') :
    sendMessagePath self m =
      ⟨false, "coordination" :: "inbox" ::
        (pathSegsOf t ++ [sendFileName self m])⟩ ∧
    checkInboxDrains (sendMessagePath self m) = false := by
  have hfdata : (sendFileName self m).data =
      (toString (m.timestamp * 1000)).data ++
        ('_' :: (self.data ++ lit ".json")) := by
    simp [sendFileName, String.data_append, lit]
  have hfslash : ∀ c ∈ (sendFileName self m).data, ¬ c = '/' := by
    rw [hfdata]
    intro c hc
    rcases List.mem_append.mp hc with h0 | h1
    · exact natRepr_ne_slash _ c h0
    · rcases List.mem_cons.mp h1 with h2 | h3
      · rw [h2]
        decide
      · rcases List.mem_append.mp h3 with h4 | h5
        · exact hself c h4
        · intro hceq
          rw [hceq] at h5
          revert h5
          decide
  have hfabs : strStartsWithSlash (sendFileName self m) = false := by
    unfold strStartsWithSlash
    cases hd : (sendFileName self m).data with
    | nil => rfl
    | cons c cs =>
      have hcm : c ∈ (sendFileName self m).data := by
        rw [hd]
        exact List.mem_cons_self _ _
      have hcne : ¬ c = '/' := hfslash c hcm
      simp [hcne]
  have hfne : (sendFileName self m).data ≠ [] := by
    rw [hfdata]
    intro h
    obtain ⟨-, h2⟩ := List.append_eq_nil.mp h
    cases h2
  have hf1 : sendFileName self m ≠ "" := by
    intro h
    apply hfne
    rw [h]
  have hf2 : sendFileName self m ≠ "." := by
    intro h
    have hd : (sendFileName self m).data = ['.'] := by
      rw [h]
    rw [hfdata] at hd
    cases hr : (toString (m.timestamp * 1000)).data with
    | nil =>
      rw [hr] at hd
      simp at hd
    | cons c cs =>
      rw [hr] at hd
      have hlen := congrArg List.length hd
      simp [List.length_append] at hlen
  have hfsegs : pathSegsOf (sendFileName self m) = [sendFileName self m] := by
    unfold pathSegsOf
    rw [splitSlash_no_slash _ hfslash]
    have heta : String.mk (sendFileName self m).data = sendFileName self m :=
      rfl
    simp only [List.map_cons, List.map_nil, heta, List.filter]
    simp [hf1, hf2]
  have hjoin : sendMessagePath self m =
      ⟨false, "coordination" :: "inbox" ::
        (pathSegsOf t ++ [sendFileName self m])⟩ := by
    have hc1 : strStartsWithSlash "coordination" = false := by decide
    have hc2 : strStartsWithSlash "inbox" = false := by decide
    have hp1 : pathSegsOf "coordination" = ["coordination"] := by decide
    have hp2 : pathSegsOf "inbox" = ["inbox"] := by decide
    simp [sendMessagePath, hto, pyJoin, habs, hfabs, hc1, hc2, hfsegs,
      hp1, hp2]
  refine ⟨hjoin, ?_⟩
  rw [hjoin]
  obtain ⟨s0, srest, hs⟩ : ∃ s0 srest, pathSegsOf t = s0 :: srest := by
    cases h : pathSegsOf t with
    | nil => exact absurd h hne
    | cons a b => exact ⟨a, b, rfl⟩
  rw [hs]
  cases hsr : srest ++ [sendFileName self m] with
  | nil => exact absurd hsr (by simp)
  | cons x xs => simp [checkInboxDrains, hsr]

/-- Witness for C10 (amended) at the concrete recipient `"B"`. -/
theorem c10_direct_not_drained_amended_witness :
    checkInboxDrains
      (sendMessagePath "A"
        ⟨"m1", "A", some "B", 7, "question", [], some 307⟩) = false :=
  (c10_direct_not_drained_amended "A"
    ⟨"m1", "A", some "B", 7, "question", [], some 307⟩ "B" rfl (by decide)
    (by decide) (by decide) (by decide)).2

/-! ## C7 -/

/-- C7: when the kimi stdout stream ends without a backend completion
record, the runner synthesizes `completed(ok=true)` from the last
assistant text with resume the found session if any, else the
provided/synthesized session token; with no assistant text and no
session found via the resume regex it emits `completed(ok=false)` with
error "kimi finished but no session_id was captured". -/
theorem c7_kimi_stream_end (resume foundSession : Option ResumeToken)
    (st : KimiStreamState) :
    (pyTruthyStrOpt st.lastAssistantText = true →
      kimiStreamEndEvents resume foundSession st =
        [TakopiEvent.completed "kimi" true (st.lastAssistantText.getD "")
          (match foundSession, resume with
           | some f, _ => some f
           | none, some r => some r
           | none, none =>
             if pyTruthyStrOpt st.sessionId then
               some ⟨"kimi", st.sessionId.getD ""⟩
             else none) none none]) ∧
    (pyTruthyStrOpt st.lastAssistantText = false → foundSession = none →
      kimiStreamEndEvents resume foundSession st =
        [TakopiEvent.completed "kimi" false "" resume
          (some "kimi finished but no session_id was captured") none]) := by
  constructor
  · intro h
    cases foundSession with
    | some f =>
      simp [kimiStreamEndEvents, h, orOpt, EventFactory.completedOk]
    | none =>
      cases resume with
      | some r =>
        simp [kimiStreamEndEvents, h, orOpt, EventFactory.completedOk]
      | none =>
        by_cases hs : pyTruthyStrOpt st.sessionId = true
        · simp [kimiStreamEndEvents, h, orOpt, EventFactory.completedOk, hs]
        · have hs' : pyTruthyStrOpt st.sessionId = false := by
            cases hb : pyTruthyStrOpt st.sessionId
            · rfl
            · exact absurd hb hs
          simp [kimiStreamEndEvents, h, orOpt, EventFactory.completedOk, hs']
  · intro h1 h2
    subst h2
    have hget : st.lastAssistantText.getD "" = "" := by
      cases hl : st.lastAssistantText with
      | none => rfl
      | some s =>
        rw [hl] at h1
        simp only [pyTruthyStrOpt, ne_eq, decide_not] at h1
        simp only [Option.getD_some]
        simpa using h1
    simp [kimiStreamEndEvents, h1, EventFactory.completedError, hget]

/-- Witness for C7: a stream that accumulated the text "Done." with a
synthesized session id, and an empty stream with no session. -/
theorem c7_kimi_stream_end_witness :
    kimiStreamEndEvents none none
        { lastAssistantText := some "Done.", sessionId := some "abc" } =
      [TakopiEvent.completed "kimi" true "Done."
        (some ⟨"kimi", "abc"⟩) none none] ∧
    kimiStreamEndEvents none none {} =
      [TakopiEvent.completed "kimi" false "" none
        (some "kimi finished but no session_id was captured") none] :=
  ⟨((c7_kimi_stream_end none none
      { lastAssistantText := some "Done.", sessionId := some "abc" }).1
      (by decide)).trans (by decide),
    (c7_kimi_stream_end none none {}).2 (by decide) rfl⟩

/-! ## C4 -/

theorem readMessage_facts (self : String) (now : Nat) (f : MsgFile)
    (m : CoordinationMessage) (h : readMessage self now f = some m) :
    m.fromLiaison ≠ self ∧ (∀ e, m.expiresAt = some e → ¬ e < now) := by
  unfold readMessage at h
  cases hc : f.content with
  | none =>
    rw [hc] at h
    cases h
  | some m0 =>
    simp only [hc] at h
    by_cases hexp : (match m0.expiresAt with
        | some e => decide (e < now)
        | none => false) = true
    · rw [if_pos hexp] at h
      cases h
    · rw [if_neg hexp] at h
      by_cases hfrom : m0.fromLiaison = self
      · rw [if_pos hfrom] at h
        cases h
      · rw [if_neg hfrom] at h
        cases h
        refine ⟨hfrom, fun e he hlt => hexp ?_⟩
        rw [he]
        simpa using hlt

theorem receiveDirect_mem (self : String) (now : Nat) :
    ∀ (files : List MsgFile) (m : CoordinationMessage),
      m ∈ (receiveDirect self now files).1 →
      ∃ f ∈ files, readMessage self now f = some m := by
  intro files
  induction files with
  | nil =>
    intro m h
    simp [receiveDirect] at h
  | cons f rest ih =>
    intro m h
    cases hr : readMessage self now f with
    | some m0 =>
      rw [show (receiveDirect self now (f :: rest)).1 =
          m0 :: (receiveDirect self now rest).1 by
        simp [receiveDirect, hr]] at h
      rcases List.mem_cons.mp h with h0 | h1
      · exact ⟨f, List.mem_cons_self f rest, by rw [hr, h0]⟩
      · obtain ⟨g, hg, hgm⟩ := ih m h1
        exact ⟨g, List.mem_cons_of_mem f hg, hgm⟩
    | none =>
      rw [show (receiveDirect self now (f :: rest)).1 =
          (receiveDirect self now rest).1 by simp [receiveDirect, hr]] at h
      obtain ⟨g, hg, hgm⟩ := ih m h
      exact ⟨g, List.mem_cons_of_mem f hg, hgm⟩

theorem receiveBroadcast_mem (self : String) (now : Nat) :
    ∀ (files : List MsgFile) (readIds : List String)
      (m : CoordinationMessage),
      m ∈ (receiveBroadcast self now files readIds).1 →
      ∃ f ∈ files, readMessage self now f = some m := by
  intro files
  induction files with
  | nil =>
    intro readIds m h
    simp [receiveBroadcast] at h
  | cons f rest ih =>
    intro readIds m h
    cases hr : readMessage self now f with
    | some m0 =>
      by_cases hc : m0.messageId ∈ readIds
      · rw [show (receiveBroadcast self now (f :: rest) readIds).1 =
            (receiveBroadcast self now rest readIds).1 by
          simp [receiveBroadcast, hr, hc]] at h
        obtain ⟨g, hg, hgm⟩ := ih readIds m h
        exact ⟨g, List.mem_cons_of_mem f hg, hgm⟩
      · rw [show (receiveBroadcast self now (f :: rest) readIds).1 =
            m0 :: (receiveBroadcast self now rest
              (m0.messageId :: readIds)).1 by
          simp [receiveBroadcast, hr, hc]] at h
        rcases List.mem_cons.mp h with h0 | h1
        · exact ⟨f, List.mem_cons_self f rest, by rw [hr, h0]⟩
        · obtain ⟨g, hg, hgm⟩ := ih _ m h1
          exact ⟨g, List.mem_cons_of_mem f hg, hgm⟩
    | none =>
      rw [show (receiveBroadcast self now (f :: rest) readIds).1 =
          (receiveBroadcast self now rest readIds).1 by
        simp [receiveBroadcast, hr]] at h
      obtain ⟨g, hg, hgm⟩ := ih readIds m h
      exact ⟨g, List.mem_cons_of_mem f hg, hgm⟩

theorem receiveBroadcast_ids (self : String) (now : Nat) :
    ∀ (files : List MsgFile) (readIds : List String),
      (((receiveBroadcast self now files readIds).1.map
        CoordinationMessage.messageId).Nodup) ∧
      (∀ m ∈ (receiveBroadcast self now files readIds).1,
        m.messageId ∉ readIds) ∧
      (∀ i ∈ readIds, i ∈ (receiveBroadcast self now files readIds).2) ∧
      (∀ m ∈ (receiveBroadcast self now files readIds).1,
        m.messageId ∈ (receiveBroadcast self now files readIds).2) := by
  intro files
  induction files with
  | nil =>
    intro readIds
    refine ⟨by simp [receiveBroadcast], by simp [receiveBroadcast],
      by simp [receiveBroadcast], by simp [receiveBroadcast]⟩
  | cons f rest ih =>
    intro readIds
    cases hr : readMessage self now f with
    | some m0 =>
      by_cases hc : m0.messageId ∈ readIds
      · have heq : receiveBroadcast self now (f :: rest) readIds =
            receiveBroadcast self now rest readIds := by
          simp [receiveBroadcast, hr, hc]
        rw [heq]
        exact ih readIds
      · have heq1 : (receiveBroadcast self now (f :: rest) readIds).1 =
            m0 :: (receiveBroadcast self now rest
              (m0.messageId :: readIds)).1 := by
          simp [receiveBroadcast, hr, hc]
        have heq2 : (receiveBroadcast self now (f :: rest) readIds).2 =
            (receiveBroadcast self now rest (m0.messageId :: readIds)).2 := by
          simp [receiveBroadcast, hr, hc]
        obtain ⟨ihn, ihf, ihs, ihi⟩ := ih (m0.messageId :: readIds)
        have hnotin : m0.messageId ∉ readIds := hc
        refine ⟨?_, ?_, ?_, ?_⟩
        · rw [heq1]
          simp only [List.map_cons, List.nodup_cons]
          refine ⟨?_, ihn⟩
          intro hmem
          obtain ⟨m1, hm1, hid⟩ := List.mem_map.mp hmem
          have := ihf m1 hm1
          rw [hid] at this
          exact this (List.mem_cons_self _ _)
        · rw [heq1]
          intro m hm
          rcases List.mem_cons.mp hm with h0 | h1
          · rw [h0]
            exact hnotin
          · intro hmem
            exact (ihf m h1) (List.mem_cons_of_mem _ hmem)
        · rw [heq2]
          intro i hi
          exact ihs i (List.mem_cons_of_mem _ hi)
        · rw [heq1, heq2]
          intro m hm
          rcases List.mem_cons.mp hm with h0 | h1
          · rw [h0]
            exact ihs m0.messageId (List.mem_cons_self _ _)
          · exact ihi m h1
    | none =>
      have heq : receiveBroadcast self now (f :: rest) readIds =
          receiveBroadcast self now rest readIds := by
        simp [receiveBroadcast, hr]
      rw [heq]
      exact ih readIds

theorem runReceives_cons (self : String) (readIds : List String)
    (c : ReceiveCall) (cs : List ReceiveCall) :
    runReceives self readIds (c :: cs) =
      (c, (receiveDirect self c.now c.direct).1,
        (receiveBroadcast self c.now c.broadcast readIds).1) ::
        runReceives self
          (receiveBroadcast self c.now c.broadcast readIds).2 cs := rfl

theorem runReceives_nodup (self : String) :
    ∀ (calls : List ReceiveCall) (readIds : List String),
      (((runReceives self readIds calls).map
        (fun entry => entry.2.2.map CoordinationMessage.messageId)).flatten.Nodup) ∧
      (∀ i ∈ ((runReceives self readIds calls).map
        (fun entry => entry.2.2.map CoordinationMessage.messageId)).flatten,
        i ∉ readIds) := by
  intro calls
  induction calls with
  | nil =>
    intro readIds
    exact ⟨by simp [runReceives], by simp [runReceives]⟩
  | cons c cs ih =>
    intro readIds
    obtain ⟨hbn, hbf, hbs, hbi⟩ :=
      receiveBroadcast_ids self c.now c.broadcast readIds
    obtain ⟨ihn, ihf⟩ := ih (receiveBroadcast self c.now c.broadcast readIds).2
    rw [runReceives_cons]
    simp only [List.map_cons, List.flatten_cons]
    constructor
    · rw [List.nodup_append]
      refine ⟨hbn, ihn, ?_⟩
      intro i hi hij
      have hid : i ∈ (receiveBroadcast self c.now c.broadcast readIds).2 := by
        obtain ⟨m, hm, hmi⟩ := List.mem_map.mp hi
        rw [← hmi]
        exact hbi m hm
      exact (ihf i hij) hid
    · intro i hi
      rcases List.mem_append.mp hi with h0 | h1
      · obtain ⟨m, hm, hmi⟩ := List.mem_map.mp h0
        rw [← hmi]
        exact hbf m hm
      · intro hmem
        exact (ihf i h1) (hbs i hmem)

/-- C4: over any lifetime of `receive_messages` calls on one coordinator
instance, no returned broadcast message comes from the receiver itself,
no returned message (direct or broadcast) is expired at the time of its
call, and each broadcast `message_id` is returned at most once (the
per-call broadcast id lists are pairwise disjoint and individually
duplicate-free). -/
theorem c4_receive_invariants (self : String) (calls : List ReceiveCall) :
    (∀ entry ∈ runReceives self [] calls,
      (∀ m ∈ entry.2.2, m.fromLiaison ≠ self) ∧
      (∀ m ∈ entry.2.1 ++ entry.2.2, ∀ e, m.expiresAt = some e →
        ¬ e < entry.1.now)) ∧
    (((runReceives self [] calls).map
      (fun entry => entry.2.2.map CoordinationMessage.messageId)).flatten.Nodup) := by
  constructor
  · have hgen : ∀ (cs : List ReceiveCall) (readIds : List String),
        ∀ entry ∈ runReceives self readIds cs,
          (∀ m ∈ entry.2.2, m.fromLiaison ≠ self) ∧
          (∀ m ∈ entry.2.1 ++ entry.2.2, ∀ e, m.expiresAt = some e →
            ¬ e < entry.1.now) := by
      intro cs
      induction cs with
      | nil =>
        intro readIds entry h
        simp [runReceives] at h
      | cons c cs ih =>
        intro readIds entry h
        rw [runReceives_cons] at h
        rcases List.mem_cons.mp h with h0 | h1
        · subst h0
          constructor
          · intro m hm
            obtain ⟨f, _, hf⟩ := receiveBroadcast_mem self c.now c.broadcast
              readIds m hm
            exact (readMessage_facts self c.now f m hf).1
          · intro m hm e he
            rcases List.mem_append.mp hm with hd | hb
            · obtain ⟨f, _, hf⟩ := receiveDirect_mem self c.now c.direct m hd
              exact (readMessage_facts self c.now f m hf).2 e he
            · obtain ⟨f, _, hf⟩ := receiveBroadcast_mem self c.now c.broadcast
                readIds m hb
              exact (readMessage_facts self c.now f m hf).2 e he
        · exact ih _ entry h1
    exact hgen calls []
  · exact (runReceives_nodup self calls []).1

/-- Witness for C4 at a concrete two-call lifetime: the same broadcast
file is listed in both calls but its message is yielded only once, and
an expired broadcast message together with the receiver's own message
are never yielded. -/
theorem c4_receive_invariants_witness :
    (⟨"m1", "B", none, 5, "info_share", [], some 400⟩ :
      CoordinationMessage).fromLiaison ≠ "A" :=
  ((c4_receive_invariants "A"
      [⟨10, [], [⟨"f1.json", some ⟨"m1", "B", none, 5, "info_share", [],
        some 400⟩⟩]⟩,
        ⟨20, [], [⟨"f1.json", some ⟨"m1", "B", none, 5, "info_share", [],
          some 400⟩⟩]⟩]).1
    (⟨10, [], [⟨"f1.json", some ⟨"m1", "B", none, 5, "info_share", [],
      some 400⟩⟩]⟩,
      [],
      [⟨"m1", "B", none, 5, "info_share", [], some 400⟩])
    (by decide)).1
    ⟨"m1", "B", none, 5, "info_share", [], some 400⟩ (by decide)

/-! ## C6 -/

theorem noteEvent_keys_count (t : Tracker) (e : TakopiEvent) :
    (noteEvent t e).1.actions.map Prod.fst =
      (match qualifyingId e with
       | some i => if i ∈ t.actions.map Prod.fst then t.actions.map Prod.fst
         else t.actions.map Prod.fst ++ [i]
       | none => t.actions.map Prod.fst) ∧
    (noteEvent t e).1.actionCount =
      (match qualifyingId e with
       | some i => if i ∈ t.actions.map Prod.fst then t.actionCount
         else t.actionCount + 1
       | none => t.actionCount) := by
  cases e with
  | started eng resume title meta => simp [noteEvent, qualifyingId]
  | completed eng ok answer resume error usage => simp [noteEvent, qualifyingId]
  | inputResponse eng rid resp responder => simp [noteEvent, qualifyingId]
  | inputRequest eng rid q src ctx opts urg => simp [noteEvent, qualifyingId]
  | action eng a phase ok msg lvl =>
    by_cases hk : a.kind = "turn"
    · simp [noteEvent, qualifyingId, hk]
    · by_cases hid : a.id = ""
      · simp [noteEvent, qualifyingId, hk, hid]
      · cases hex : alistGet t.actions a.id with
        | none =>
          have hmem : a.id ∉ t.actions.map Prod.fst :=
            (alistGet_eq_none _ _).mp hex
          constructor
          · simp [noteEvent, qualifyingId, hk, hid, hex, alistSet_keys, hmem]
          · simp [noteEvent, qualifyingId, hk, hid, hex, hmem]
        | some st =>
          have hmem : a.id ∈ t.actions.map Prod.fst := by
            by_contra hn
            rw [(alistGet_eq_none _ _).mpr hn] at hex
            cases hex
          constructor
          · simp [noteEvent, qualifyingId, hk, hid, hex, alistSet_keys, hmem]
          · simp [noteEvent, qualifyingId, hk, hid, hex, hmem]

theorem foldTracker_count_keys (es : List TakopiEvent) :
    ∀ t : Tracker, t.actionCount = (t.actions.map Prod.fst).length →
      (foldTracker t es).actionCount =
        ((foldTracker t es).actions.map Prod.fst).length := by
  induction es with
  | nil =>
    intro t h
    simpa [foldTracker] using h
  | cons e es ih =>
    intro t h
    rw [show foldTracker t (e :: es) = foldTracker (noteEvent t e).1 es from rfl]
    apply ih
    obtain ⟨hkeys, hcount⟩ := noteEvent_keys_count t e
    rw [hkeys, hcount]
    cases hq : qualifyingId e with
    | none => exact h
    | some i =>
      by_cases hm : i ∈ t.actions.map Prod.fst
      · simp [hm, h]
      · simp [hm, h]

theorem foldTracker_keys_mem (es : List TakopiEvent) :
    ∀ (t : Tracker) (x : String),
      x ∈ (foldTracker t es).actions.map Prod.fst ↔
        x ∈ t.actions.map Prod.fst ∨ x ∈ es.filterMap qualifyingId := by
  induction es with
  | nil =>
    intro t x
    simp [foldTracker]
  | cons e es ih =>
    intro t x
    rw [show foldTracker t (e :: es) = foldTracker (noteEvent t e).1 es from rfl]
    rw [ih]
    obtain ⟨hkeys, _⟩ := noteEvent_keys_count t e
    cases hq : qualifyingId e with
    | none =>
      have hkeq : (noteEvent t e).1.actions.map Prod.fst =
          t.actions.map Prod.fst := by
        rw [hkeys, hq]
      rw [hkeq]
      simp [List.filterMap_cons, hq]
    | some i =>
      have hfm : List.filterMap qualifyingId (e :: es) =
          i :: List.filterMap qualifyingId es := by
        simp [List.filterMap_cons, hq]
      by_cases hm : i ∈ t.actions.map Prod.fst
      · have hkeq : (noteEvent t e).1.actions.map Prod.fst =
            t.actions.map Prod.fst := by
          rw [hkeys, hq]
          simp [hm]
        rw [hkeq, hfm, List.mem_cons]
        constructor
        · rintro (h | h)
          · exact Or.inl h
          · exact Or.inr (Or.inr h)
        · rintro (h | h | h)
          · exact Or.inl h
          · subst h
            exact Or.inl hm
          · exact Or.inr h
      · have hkeq : (noteEvent t e).1.actions.map Prod.fst =
            t.actions.map Prod.fst ++ [i] := by
          rw [hkeys, hq]
          simp [hm]
        rw [hkeq, hfm, List.mem_cons]
        simp only [List.mem_append, List.mem_singleton]
        constructor
        · rintro ((h | h) | h)
          · exact Or.inl h
          · exact Or.inr (Or.inl h)
          · exact Or.inr (Or.inr h)
        · rintro (h | h | h)
          · exact Or.inl (Or.inl h)
          · exact Or.inl (Or.inr h)
          · exact Or.inr h

theorem foldTracker_keys_nodup (es : List TakopiEvent) :
    ∀ t : Tracker, (t.actions.map Prod.fst).Nodup →
      ((foldTracker t es).actions.map Prod.fst).Nodup := by
  induction es with
  | nil =>
    intro t h
    simpa [foldTracker] using h
  | cons e es ih =>
    intro t h
    rw [show foldTracker t (e :: es) = foldTracker (noteEvent t e).1 es from rfl]
    apply ih
    obtain ⟨hkeys, _⟩ := noteEvent_keys_count t e
    cases hq : qualifyingId e with
    | none =>
      have hkeq : (noteEvent t e).1.actions.map Prod.fst =
          t.actions.map Prod.fst := by
        rw [hkeys, hq]
      rw [hkeq]
      exact h
    | some i =>
      by_cases hm : i ∈ t.actions.map Prod.fst
      · have hkeq : (noteEvent t e).1.actions.map Prod.fst =
            t.actions.map Prod.fst := by
          rw [hkeys, hq]
          simp [hm]
        rw [hkeq]
        exact h
      · have hkeq : (noteEvent t e).1.actions.map Prod.fst =
            t.actions.map Prod.fst ++ [i] := by
          rw [hkeys, hq]
          simp [hm]
        rw [hkeq]
        simp [List.nodup_append, h, hm]

theorem noteEvent_dropped (t : Tracker) (e : TakopiEvent)
    (h : isDroppedAction e = true) : noteEvent t e = (t, false) := by
  cases e with
  | action eng a phase ok msg lvl =>
    simp only [isDroppedAction, Bool.or_eq_true, decide_eq_true_eq] at h
    rcases h with h | h
    · simp [noteEvent, h]
    · by_cases hk : a.kind = "turn"
      · simp [noteEvent, hk]
      · simp [noteEvent, hk, h]
  | started eng resume title meta => simp [isDroppedAction] at h
  | completed eng ok answer resume error usage => simp [isDroppedAction] at h
  | inputRequest eng rid q src ctx opts urg => simp [isDroppedAction] at h
  | inputResponse eng rid resp responder => simp [isDroppedAction] at h

/-- C6: `note_event` drops `turn`-kind and empty-id action events
without touching the tracker state (returning false), and after any
event sequence the tracker's `action_count` equals the number of
distinct non-empty, non-`turn` action ids in the sequence. -/
theorem c6_tracker_action_count (engine : String)
    (events : List TakopiEvent) :
    (∀ (t : Tracker) (e : TakopiEvent), isDroppedAction e = true →
      noteEvent t e = (t, false)) ∧
    (foldTracker (freshTracker engine) events).actionCount =
      ((events.filterMap qualifyingId).dedup).length := by
  constructor
  · exact fun t e h => noteEvent_dropped t e h
  · have h0 : (freshTracker engine).actionCount =
        ((freshTracker engine).actions.map Prod.fst).length := rfl
    have hnodup : ((freshTracker engine).actions.map Prod.fst).Nodup := by
      simp [freshTracker]
    rw [foldTracker_count_keys events (freshTracker engine) h0]
    apply List.Perm.length_eq
    apply (List.perm_ext_iff_of_nodup
      (foldTracker_keys_nodup events (freshTracker engine) hnodup)
      (List.nodup_dedup _)).mpr
    intro a
    rw [List.mem_dedup, foldTracker_keys_mem events (freshTracker engine) a]
    simp [freshTracker]

/-- Witness for C6: an empty-id action event is dropped, and a
four-event sequence with a repeated id, a `turn` action and two distinct
real ids yields `action_count = 2`. -/
theorem c6_tracker_action_count_witness :
    noteEvent (freshTracker "kimi")
      (.action "kimi" ⟨"", "tool", "t", []⟩ "started" none none none) =
      (freshTracker "kimi", false) ∧
    (foldTracker (freshTracker "kimi")
      [.action "kimi" ⟨"a1", "command", "ls", []⟩ "started" none none none,
        .action "kimi" ⟨"a1", "command", "ls", []⟩ "completed" (some true)
          none none,
        .action "kimi" ⟨"x", "turn", "t", []⟩ "started" none none none,
        .action "kimi" ⟨"a2", "tool", "t2", []⟩ "started" none none
          none]).actionCount = 2 :=
  ⟨(c6_tracker_action_count "kimi" []).1 (freshTracker "kimi")
      (.action "kimi" ⟨"", "tool", "t", []⟩ "started" none none none)
      (by decide),
    ((c6_tracker_action_count "kimi"
      [.action "kimi" ⟨"a1", "command", "ls", []⟩ "started" none none none,
        .action "kimi" ⟨"a1", "command", "ls", []⟩ "completed" (some true)
          none none,
        .action "kimi" ⟨"x", "turn", "t", []⟩ "started" none none none,
        .action "kimi" ⟨"a2", "tool", "t2", []⟩ "started" none none
          none]).2).trans (by decide)⟩

/-! ## C8 -/

theorem takeWhile_append_of_all {p : Char → Bool} :
    ∀ (a b : List Char), (∀ c ∈ a, p c = true) →
      (a ++ b).takeWhile p = a ++ b.takeWhile p := by
  intro a
  induction a with
  | nil => intro b _; simp
  | cons c rest ih =>
    intro b h
    have hc : p c = true := h c (List.mem_cons_self _ _)
    simp only [List.cons_append, List.takeWhile_cons, hc, if_true]
    rw [ih b (fun x hx => h x (List.mem_cons_of_mem _ hx))]

theorem dropWhile_append_of_all {p : Char → Bool} :
    ∀ (a b : List Char), (∀ c ∈ a, p c = true) →
      (a ++ b).dropWhile p = b.dropWhile p := by
  intro a
  induction a with
  | nil => intro b _; simp
  | cons c rest ih =>
    intro b h
    have hc : p c = true := h c (List.mem_cons_self _ _)
    simp only [List.cons_append, List.dropWhile_cons, hc, if_true]
    exact ih b (fun x hx => h x (List.mem_cons_of_mem _ hx))

theorem splitNl_no_newline :
    ∀ l : List Char, (∀ c ∈ l, ¬ c = '\n') → splitNl l = [l] := by
  intro l
  induction l with
  | nil => intro _; rfl
  | cons c rest ih =>
    intro h
    have hc : ¬ c = '\n' := h c (List.mem_cons_self _ _)
    rw [splitNl, if_neg hc, ih (fun x hx => h x (List.mem_cons_of_mem _ hx))]

/-- C8 counterexample: the round-trip fails for a kimi token whose
value contains whitespace: `format_resume` renders the line, but the
token character class of the resume regex cannot span the space and the
anchored tail rejects the rest, so extraction returns nothing instead
of the original token. -/
theorem c8_counterexample :
    kimiFormatResume ⟨"kimi", "a b"⟩ =
      Except.ok "`kimi --session a b`" ∧
    kimiExtractResume "`kimi --session a b`" = none := by
  refine ⟨rfl, by decide⟩

/-- C8 (amended): for every kimi resume token whose value is non-empty
and contains neither whitespace nor a backtick, applying the resume
regex to the line produced by `format_resume` recovers exactly the
original token; and `format_resume` errors on a token whose engine is
not `kimi`. -/
theorem c8_resume_roundtrip_amended (t : ResumeToken) :
    (t.engine = "kimi" → t.value ≠ "" →
      (∀ c ∈ t.value.data, isPySpace c = false ∧ c ≠ '`') →
      kimiFormatResume t = Except.ok ("`kimi --session " ++ t.value ++ "`") ∧
      kimiExtractResume ("`kimi --session " ++ t.value ++ "`") = some t) ∧
    (t.engine ≠ "kimi" →
      kimiFormatResume t =
        Except.error ("resume token is for engine " ++ t.engine)) := by
  constructor
  · intro heng hne hv
    constructor
    · simp [kimiFormatResume, heng]
    · obtain ⟨eng, v⟩ := t
      simp only at heng hne hv ⊢
      subst heng
      obtain ⟨c0, v', hv0⟩ : ∃ c0 v', v.data = c0 :: v' := by
        cases hvd : v.data with
        | nil => exact absurd (String.ext (hvd.trans rfl)) hne
        | cons c0 v' => exact ⟨c0, v', rfl⟩
      have hdata : ("`kimi --session " ++ v ++ "`").data =
          '`' :: 'k' :: 'i' :: 'm' :: 'i' :: ' ' :: '-' :: '-' :: 's' ::
            'e' :: 's' :: 's' :: 'i' :: 'o' :: 'n' :: ' ' ::
            (v.data ++ ['`']) := by
        rw [show ("`kimi --session " ++ v ++ "`").data =
          "`kimi --session ".data ++ v.data ++ "`".data by
            simp [String.data_append]]
        rw [List.append_assoc]
        rfl
      have key : kimiLineMatch
          ('`' :: 'k' :: 'i' :: 'm' :: 'i' :: ' ' :: '-' :: '-' :: 's' ::
            'e' :: 's' :: 's' :: 'i' :: 'o' :: 'n' :: ' ' ::
            (v.data ++ ['`'])) = some v.data := by
        have hc0 : isPySpace c0 = false := (hv c0 (by rw [hv0]; exact List.mem_cons_self _ _)).1
        have hq : ∀ c ∈ c0 :: v', (!decide (c = '`') && !isPySpace c) = true := by
          intro c hc
          obtain ⟨h1, h2⟩ := hv c (by rw [hv0]; exact hc)
          simp [h1, h2]
        have htok : List.takeWhile (fun c => !decide (c = '`') && !isPySpace c)
            ((c0 :: v') ++ ['`']) = c0 :: v' := by
          rw [takeWhile_append_of_all (c0 :: v') ['`'] hq]
          rw [show List.takeWhile
            (fun c => !decide (c = '`') && !isPySpace c) ['`'] = [] from rfl]
          exact List.append_nil _
        have hdrop : List.drop (c0 :: v').length ((c0 :: v') ++ ['`']) = ['`'] :=
          List.drop_left _ _
        have hs6 : List.dropWhile isPySpace ((c0 :: v') ++ ['`']) =
            (c0 :: v') ++ ['`'] := by
          simp [List.cons_append, List.dropWhile_cons, hc0]
        rw [hv0]
        change (let s6 : List Char :=
            List.dropWhile isPySpace (c0 :: v' ++ ['`'])
          let tok : List Char := List.takeWhile
            (fun c => !decide (c = '`') && !isPySpace c) s6
          if tok.isEmpty = true then (none : Option (List Char))
          else
            let s7 : List Char := List.drop tok.length s6
            let s8 : List Char :=
              match s7 with
              | '`' :: r => r
              | x => s7
            if s8.all isPySpace = true then some tok else none) =
          some (c0 :: v')
        simp only []
        rw [hs6, htok]
        rw [show (c0 :: v').isEmpty = false from rfl]
        simp only [Bool.false_eq_true, if_false]
        rw [hdrop]
        rfl
      have hmk : String.mk v.data = v := rfl
      have hnl : ∀ c ∈ ('`' :: 'k' :: 'i' :: 'm' :: 'i' :: ' ' :: '-' ::
          '-' :: 's' :: 'e' :: 's' :: 's' :: 'i' :: 'o' :: 'n' :: ' ' ::
          (v.data ++ ['`'])), ¬ c = '\n' := by
        intro c hc heq
        subst heq
        simp only [List.mem_cons, List.mem_append, List.mem_singleton] at hc
        rcases hc with h|h|h|h|h|h|h|h|h|h|h|h|h|h|h|h|h|h
        case _ => exact absurd h (by decide)
        case _ => exact absurd h (by decide)
        case _ => exact absurd h (by decide)
        case _ => exact absurd h (by decide)
        case _ => exact absurd h (by decide)
        case _ => exact absurd h (by decide)
        case _ => exact absurd h (by decide)
        case _ => exact absurd h (by decide)
        case _ => exact absurd h (by decide)
        case _ => exact absurd h (by decide)
        case _ => exact absurd h (by decide)
        case _ => exact absurd h (by decide)
        case _ => exact absurd h (by decide)
        case _ => exact absurd h (by decide)
        case _ => exact absurd h (by decide)
        case _ => exact absurd h (by decide)
        case _ => exact absurd (hv _ h).1 (by decide)
        case _ => exact absurd h (by decide)
      rw [show kimiExtractResume ("`kimi --session " ++ v ++ "`") =
          (splitNl ("`kimi --session " ++ v ++ "`").data).findSome?
            (fun l => (kimiLineMatch l).map
              (fun tok => ResumeToken.mk "kimi" (String.mk tok))) from rfl]
      rw [hdata, splitNl_no_newline _ hnl]
      simp [key, hmk]
  · intro heng
    simp [kimiFormatResume, heng]

/-- Witness for C8 (amended) at the concrete token `(kimi, abc123)` and
the wrong-engine token `(codex, x)`. -/
theorem c8_resume_roundtrip_amended_witness :
    kimiExtractResume ("`kimi --session " ++ "abc123" ++ "`") =
      some ⟨"kimi", "abc123"⟩ ∧
    kimiFormatResume ⟨"codex", "x"⟩ =
      Except.error ("resume token is for engine " ++ "codex") :=
  ⟨((c8_resume_roundtrip_amended ⟨"kimi", "abc123"⟩).1 rfl (by decide)
      (by decide)).2,
    (c8_resume_roundtrip_amended ⟨"codex", "x"⟩).2 (by decide)⟩


end Takopi
